import Mathlib

/-!
Verification of the GSCX firmware-control-plane core (`pyapp/gscx_gui/modules_loader.py`)
against its natural-language specification.

The Python source is shallowly embedded: byte strings become `List Nat`, on-disk
paths become lists of components, the mutable loader object becomes an explicit
state record threaded through each operation, and every failure signalled by the
code (an early log-and-return or a raised exception) becomes the `Except.error` /
`Bool` result of the corresponding Lean function.
-/

set_option autoImplicit false

namespace GSCX

/-! ### Little-endian byte readers (the shape of `struct.unpack_from`) -/

/-- Read a little-endian `u16` at absolute offset `off`; `none` when the buffer is
too short, exactly where `struct.unpack_from('<H', data, off)` would raise. -/
def u16At (data : List Nat) (off : Nat) : Option Nat :=
  match data[off]?, data[off + 1]? with
  | some a, some b => some (a + 256 * b)
  | _, _ => none

/-- Read a little-endian `u32` at absolute offset `off`. -/
def u32At (data : List Nat) (off : Nat) : Option Nat :=
  match data[off]?, data[off + 1]?, data[off + 2]?, data[off + 3]? with
  | some a, some b, some c, some d =>
      some (a + 256 * b + 65536 * c + 16777216 * d)
  | _, _, _, _ => none

/-- `data[off : off+n]` with Python's silent clamping at the buffer end. -/
def sliceAt (data : List Nat) (off n : Nat) : List Nat :=
  (data.drop off).take n

/-! ### Bundle (.gscb) container parsing, from `ModulesLoader.load_from_gscore` -/

/-- The three early-failure exits of `load_from_gscore`: header shorter than 8
bytes, magic mismatch, and any exception while reading the entry table. -/
inductive BundleFormatError where
  | invalidHeader
  | badMagic
  | tableReadError
deriving DecidableEq, Repr

/-- One parsed entry `(type_, name, payload_off, size)`; the name is kept as its
raw (UTF-8-validated) bytes. -/
structure BundleEntry where
  kind : Nat
  name : List Nat
  payloadOff : Nat
  size : Nat
deriving DecidableEq, Repr

/-- Incremental UTF-8 validation, the acceptance set of Python's strict
`bytes.decode('utf-8')` (RFC 3629 well-formed sequences: no overlong forms, no
surrogates, nothing above U+10FFFF).  `expect` counts the continuation bytes
still owed; `lo`/`hi` bound the next byte of an open sequence. -/
def utf8Scan : List Nat → Nat → Nat → Nat → Bool
  | [], expect, _, _ => expect = 0
  | b :: rest, 0, _, _ =>
      if b < 128 then utf8Scan rest 0 0 0
      else if 194 ≤ b && b ≤ 223 then utf8Scan rest 1 128 191
      else if b = 224 then utf8Scan rest 2 160 191
      else if (225 ≤ b && b ≤ 236) || b = 238 || b = 239 then utf8Scan rest 2 128 191
      else if b = 237 then utf8Scan rest 2 128 159
      else if b = 240 then utf8Scan rest 3 144 191
      else if 241 ≤ b && b ≤ 243 then utf8Scan rest 3 128 191
      else if b = 244 then utf8Scan rest 3 128 143
      else false
  | b :: rest, expect + 1, lo, hi =>
      if lo ≤ b && b ≤ hi then utf8Scan rest expect 128 191
      else false

/-- Whether `name.decode('utf-8')` succeeds on these bytes. -/
def validUtf8 (bs : List Nat) : Bool := utf8Scan bs 0 0 0

/-- The entry-table loop of `load_from_gscore`: for each of `count` entries read
`u16 kind`, `u16 nameLen`, `nameLen` name bytes (which must decode as UTF-8),
`u32 payloadOff`, `u32 size`; a read past the buffer end or a
`UnicodeDecodeError` on the name is the single caught-and-logged table error. -/
def parseEntries (data : List Nat) : Nat → Nat → Except BundleFormatError (List BundleEntry × Nat)
  | 0, off => .ok ([], off)
  | n + 1, off =>
    match u16At data off, u16At data (off + 2) with
    | some t, some nl =>
      let name := sliceAt data (off + 4) nl
      if validUtf8 name then
        match u32At data (off + 4 + nl), u32At data (off + 4 + nl + 4) with
        | some po, some sz =>
          match parseEntries data n (off + 4 + nl + 8) with
          | .ok (rest, e) => .ok (⟨t, name, po, sz⟩ :: rest, e)
          | .error er => .error er
        | _, _ => .error .tableReadError
      else .error .tableReadError
    | _, _ => .error .tableReadError

/-- Header parse of `load_from_gscore`: `magic(4) ver(2) count(2)` little-endian,
magic must equal `0x47534352`; returns `(version, count, entries, tableEnd)`. -/
def parseGscore (data : List Nat) : Except BundleFormatError (Nat × Nat × List BundleEntry × Nat) :=
  if data.length < 8 then .error .invalidHeader
  else
    match u32At data 0, u16At data 4, u16At data 6 with
    | some magic, some ver, some count =>
        if magic ≠ 0x47534352 then .error .badMagic
        else
          match parseEntries data count 8 with
          | .ok (es, e) => .ok (ver, count, es, e)
          | .error er => .error er
    | _, _, _ => .error .invalidHeader

/-- Extraction: after a fully successful table parse, each entry's payload
`data[payloadOff : payloadOff+size]` is written to the staging file named by the
entry, subdirectories implied by `/` (byte 47) separators in the name; the result
lists each written file as (relative path components, content bytes). -/
def extractGscore (data : List Nat) :
    Except BundleFormatError (List (List (List Nat) × List Nat)) :=
  match parseGscore data with
  | .error er => .error er
  | .ok (_, _, es, _) =>
      .ok (es.map (fun en => (en.name.splitOn 47, sliceAt data en.payloadOff en.size)))

/-! ### Reader lemmas -/

theorem getElem?_append_add {α : Type} (pre l : List α) (i : Nat) :
    (pre ++ l)[pre.length + i]? = l[i]? := by
  rw [List.getElem?_append_right (by omega)]
  congr 1
  omega

theorem getElem?_lt_of_some {α : Type} {l : List α} {i : Nat} {a : α}
    (h : l[i]? = some a) : i < l.length := by
  by_contra hc
  rw [List.getElem?_eq_none (by omega)] at h
  simp at h

theorem u16At_le_of_some {data : List Nat} {off v : Nat} (h : u16At data off = some v) :
    off + 2 ≤ data.length := by
  unfold u16At at h
  rcases h1 : data[off]? with _ | a <;> rcases h2 : data[off + 1]? with _ | b <;>
    rw [h1, h2] at h <;> simp at h
  have := getElem?_lt_of_some h2
  omega

theorem u32At_le_of_some {data : List Nat} {off v : Nat} (h : u32At data off = some v) :
    off + 4 ≤ data.length := by
  unfold u32At at h
  rcases h1 : data[off]? with _ | a <;> rw [h1] at h <;>
    rcases h2 : data[off + 1]? with _ | b <;> rw [h2] at h <;>
    rcases h3 : data[off + 2]? with _ | c <;> rw [h3] at h <;>
    rcases h4 : data[off + 3]? with _ | d <;> rw [h4] at h <;> simp at h
  have := getElem?_lt_of_some h4
  omega

theorem u16At_take {data : List Nat} {off k : Nat} (h : off + 2 ≤ k) :
    u16At (data.take k) off = u16At data off := by
  unfold u16At
  rw [List.getElem?_take_of_lt (by omega), List.getElem?_take_of_lt (by omega)]

theorem u32At_take {data : List Nat} {off k : Nat} (h : off + 4 ≤ k) :
    u32At (data.take k) off = u32At data off := by
  unfold u32At
  rw [List.getElem?_take_of_lt (by omega), List.getElem?_take_of_lt (by omega),
    List.getElem?_take_of_lt (by omega), List.getElem?_take_of_lt (by omega)]

theorem u16At_none_of_le {data : List Nat} {off : Nat} (h : data.length ≤ off + 1) :
    u16At data off = none := by
  unfold u16At
  rw [List.getElem?_eq_none (l := data) (n := off + 1) (by omega)]
  rcases data[off]? with _ | a <;> rfl

theorem u32At_none_of_le {data : List Nat} {off : Nat} (h : data.length ≤ off + 3) :
    u32At data off = none := by
  unfold u32At
  rw [List.getElem?_eq_none (l := data) (n := off + 3) (by omega)]
  rcases data[off]? with _ | a <;> rcases data[off + 1]? with _ | b <;>
    rcases data[off + 2]? with _ | c <;> rfl

/-! ### Inversion and truncation lemmas for the entry-table parser -/

theorem parseEntries_zero {data : List Nat} {off : Nat} :
    parseEntries data 0 off = .ok ([], off) := rfl

theorem parseEntries_succ_ok {data : List Nat} {n off : Nat} {es : List BundleEntry} {e : Nat}
    (h : parseEntries data (n + 1) off = .ok (es, e)) :
    ∃ t nl po sz rest,
      u16At data off = some t ∧ u16At data (off + 2) = some nl ∧
      validUtf8 (sliceAt data (off + 4) nl) = true ∧
      u32At data (off + 4 + nl) = some po ∧ u32At data (off + 4 + nl + 4) = some sz ∧
      parseEntries data n (off + 4 + nl + 8) = .ok (rest, e) ∧
      es = ⟨t, sliceAt data (off + 4) nl, po, sz⟩ :: rest := by
  unfold parseEntries at h
  rcases hA : u16At data off with _ | t <;> rw [hA] at h
  · simp at h
  · rcases hB : u16At data (off + 2) with _ | nl <;> rw [hB] at h
    · simp at h
    · dsimp only at h
      rcases hV : validUtf8 (sliceAt data (off + 4) nl) with _ | _ <;> rw [hV] at h
      · simp at h
      · rw [if_pos rfl] at h
        rcases hC : u32At data (off + 4 + nl) with _ | po <;> rw [hC] at h
        · simp at h
        · rcases hD : u32At data (off + 4 + nl + 4) with _ | sz <;> rw [hD] at h
          · simp at h
          · dsimp only at h
            rcases hE : parseEntries data n (off + 4 + nl + 8) with er | ⟨rest, e'⟩ <;>
              rw [hE] at h
            · simp at h
            · simp only [Except.ok.injEq, Prod.mk.injEq] at h
              exact ⟨t, nl, po, sz, rest, rfl, rfl, hV, hC, hD,
                by rw [hE, h.2], by rw [← h.1]⟩

theorem parseEntries_mono {data : List Nat} :
    ∀ {n off es e}, parseEntries data n off = .ok (es, e) → off ≤ e := by
  intro n
  induction n with
  | zero =>
    intro off es e h
    rw [parseEntries_zero] at h
    simp only [Except.ok.injEq, Prod.mk.injEq] at h
    omega
  | succ n ih =>
    intro off es e h
    obtain ⟨t, nl, po, sz, rest, _, _, _, _, _, hrec, _⟩ := parseEntries_succ_ok h
    have := ih hrec
    omega

theorem parseEntries_le_length {data : List Nat} :
    ∀ {n off es e}, parseEntries data n off = .ok (es, e) → off ≤ data.length →
      e ≤ data.length := by
  intro n
  induction n with
  | zero =>
    intro off es e h hoff
    rw [parseEntries_zero] at h
    simp only [Except.ok.injEq, Prod.mk.injEq] at h
    omega
  | succ n ih =>
    intro off es e h _
    obtain ⟨t, nl, po, sz, rest, _, _, _, _, hD, hrec, _⟩ := parseEntries_succ_ok h
    exact ih hrec (by have := u32At_le_of_some hD; omega)

theorem sliceAt_take {data : List Nat} {off n k : Nat} (h : off + n ≤ k) :
    sliceAt (data.take k) off n = sliceAt data off n := by
  unfold sliceAt
  rw [List.drop_take, List.take_take]
  congr 1
  omega

/-- Truncating the buffer strictly before the end of a successfully parsed entry
table makes the entry-table loop fail with the single caught table-read error. -/
theorem parseEntries_truncate {data : List Nat} :
    ∀ {n off es e k}, parseEntries data n off = .ok (es, e) → off ≤ k → k < e →
      parseEntries (data.take k) n off = .error .tableReadError := by
  intro n
  induction n with
  | zero =>
    intro off es e k h hok hke
    rw [parseEntries_zero] at h
    simp only [Except.ok.injEq, Prod.mk.injEq] at h
    omega
  | succ n ih =>
    intro off es e k h hok hke
    obtain ⟨t, nl, po, sz, rest, hA, hB, hV, hC, hD, hrec, hes⟩ := parseEntries_succ_ok h
    have hklen : k ≤ data.length := by
      have h8 : off + 4 + nl + 8 ≤ data.length := by have := u32At_le_of_some hD; omega
      have := parseEntries_le_length hrec (by omega)
      have := parseEntries_mono hrec
      omega
    have htklen : (data.take k).length ≤ k := by
      simp [List.length_take]
    by_cases hc1 : k < off + 4
    · have hnone : u16At (data.take k) (off + 2) = none :=
        u16At_none_of_le (by omega)
      rcases hF : u16At (data.take k) off with _ | t' <;>
        simp [parseEntries, hF, hnone]
    · push_neg at hc1
      have h16a : u16At (data.take k) off = u16At data off := u16At_take (by omega)
      have h16b : u16At (data.take k) (off + 2) = u16At data (off + 2) :=
        u16At_take (by omega)
      by_cases hc2 : k < off + 4 + nl + 8
      · rcases hVt : validUtf8 (sliceAt (data.take k) (off + 4) nl) with _ | _
        · simp [parseEntries, h16a, h16b, hA, hB, hVt]
        · by_cases hc3 : k < off + 4 + nl + 4
          · have hnone : u32At (data.take k) (off + 4 + nl) = none :=
              u32At_none_of_le (by omega)
            simp [parseEntries, h16a, h16b, hA, hB, hVt, hnone]
          · push_neg at hc3
            have h32a : u32At (data.take k) (off + 4 + nl) = u32At data (off + 4 + nl) :=
              u32At_take (by omega)
            have hnone : u32At (data.take k) (off + 4 + nl + 4) = none :=
              u32At_none_of_le (by omega)
            simp [parseEntries, h16a, h16b, hA, hB, hVt, h32a, hC, hnone]
      · push_neg at hc2
        have hslice : sliceAt (data.take k) (off + 4) nl = sliceAt data (off + 4) nl :=
          sliceAt_take (by omega)
        have h32a : u32At (data.take k) (off + 4 + nl) = u32At data (off + 4 + nl) :=
          u32At_take (by omega)
        have h32b : u32At (data.take k) (off + 4 + nl + 4) = u32At data (off + 4 + nl + 4) :=
          u32At_take (by omega)
        have hrec' : parseEntries (data.take k) n (off + 4 + nl + 8) =
            .error .tableReadError := ih hrec hc2 hke
        simp [parseEntries, h16a, h16b, hA, hB, hslice, hV, h32a, h32b, hC, hD, hrec']

theorem parseGscore_ok_inv {data : List Nat} {ver count : Nat} {es : List BundleEntry}
    {e : Nat} (h : parseGscore data = .ok (ver, count, es, e)) :
    8 ≤ data.length ∧ u32At data 0 = some 0x47534352 ∧ u16At data 4 = some ver ∧
      u16At data 6 = some count ∧ parseEntries data count 8 = .ok (es, e) := by
  unfold parseGscore at h
  by_cases hlen : data.length < 8
  · rw [if_pos hlen] at h
    simp at h
  · rw [if_neg hlen] at h
    rcases hA : u32At data 0 with _ | m <;> rw [hA] at h
    · simp at h
    · rcases hB : u16At data 4 with _ | v <;> rw [hB] at h
      · simp at h
      · rcases hC : u16At data 6 with _ | c <;> rw [hC] at h
        · simp at h
        · dsimp only at h
          by_cases hm : m ≠ 0x47534352
          · rw [if_pos hm] at h
            simp at h
          · push_neg at hm
            rw [if_neg (by simp [hm])] at h
            rcases hE : parseEntries data c 8 with er | ⟨es', e'⟩ <;> rw [hE] at h
            · simp at h
            · simp only [Except.ok.injEq, Prod.mk.injEq] at h
              obtain ⟨h1, h2, h3, h4⟩ := h
              subst h1 h2 h3 h4
              exact ⟨by omega, by rw [hm], rfl, rfl, hE⟩

/-! ### Claim C1 -/

/-- C1: every byte string with fewer than 8 header bytes, or whose first four
little-endian bytes do not decode to the magic constant `0x47534352`, fails
bundle extraction with a `BundleFormatError` signalled directly to the caller
(`load_from_gscore` logs and returns before any entry is extracted), and the
extraction result carries no extracted entry at all. -/
theorem claim1_short_or_bad_magic_fails (data : List Nat)
    (h : data.length < 8 ∨ u32At data 0 ≠ some 0x47534352) :
    (extractGscore data = .error .invalidHeader ∨ extractGscore data = .error .badMagic) ∧
      ∀ files, extractGscore data ≠ .ok files := by
  have hmain : extractGscore data = .error .invalidHeader ∨
      extractGscore data = .error .badMagic := by
    by_cases hlen : data.length < 8
    · left
      simp [extractGscore, parseGscore, hlen]
    · right
      push_neg at hlen
      have h0 : data[0]? = some data[0] := List.getElem?_eq_getElem (by omega)
      have h1 : data[1]? = some data[1] := List.getElem?_eq_getElem (by omega)
      have h2 : data[2]? = some data[2] := List.getElem?_eq_getElem (by omega)
      have h3 : data[3]? = some data[3] := List.getElem?_eq_getElem (by omega)
      have h4 : data[4]? = some data[4] := List.getElem?_eq_getElem (by omega)
      have h5 : data[5]? = some data[5] := List.getElem?_eq_getElem (by omega)
      have h6 : data[6]? = some data[6] := List.getElem?_eq_getElem (by omega)
      have h7 : data[7]? = some data[7] := List.getElem?_eq_getElem (by omega)
      have hu32 : u32At data 0 = some (data[0] + 256 * data[1] + 65536 * data[2] +
          16777216 * data[3]) := by
        unfold u32At
        rw [show (0 : Nat) + 1 = 1 from rfl, show (0 : Nat) + 2 = 2 from rfl,
          show (0 : Nat) + 3 = 3 from rfl, h0, h1, h2, h3]
      have hmagic : data[0] + 256 * data[1] + 65536 * data[2] + 16777216 * data[3] ≠
          0x47534352 := by
        intro he
        rcases h with h | h
        · omega
        · exact h (by rw [hu32, he])
      have hu16a : u16At data 4 = some (data[4] + 256 * data[5]) := by
        unfold u16At
        rw [show (4 : Nat) + 1 = 5 from rfl, h4, h5]
      have hu16b : u16At data 6 = some (data[6] + 256 * data[7]) := by
        unfold u16At
        rw [show (6 : Nat) + 1 = 7 from rfl, h6, h7]
      simp [extractGscore, parseGscore, Nat.not_lt.mpr hlen, hu32, hu16a, hu16b, hmagic]
  refine ⟨hmain, ?_⟩
  intro files hok
  rcases hmain with hm | hm <;> rw [hm] at hok <;> exact Except.noConfusion hok

/-- Witness for C1 at the concrete empty byte string. -/
theorem claim1_short_or_bad_magic_fails_witness :
    extractGscore [] = .error .invalidHeader ∨ extractGscore [] = .error .badMagic :=
  (claim1_short_or_bad_magic_fails [] (Or.inl (by decide))).1

/-! ### Claim C5 -/

theorem parseGscore_truncate {data : List Nat} {ver count : Nat} {es : List BundleEntry}
    {e k : Nat} (hp : parseGscore data = .ok (ver, count, es, e)) (hk8 : 8 ≤ k)
    (hke : k < e) : parseGscore (data.take k) = .error .tableReadError := by
  obtain ⟨hlen, hu32, hu16a, hu16b, hpe⟩ := parseGscore_ok_inv hp
  have he_le : e ≤ data.length := parseEntries_le_length hpe (by omega)
  have hklen : (data.take k).length = k := by
    simp [List.length_take]
    omega
  have h1 : ¬ (data.take k).length < 8 := by omega
  have h2 : u32At (data.take k) 0 = some 0x47534352 := by
    rw [u32At_take (by omega)]
    exact hu32
  have h3 : u16At (data.take k) 4 = some ver := by
    rw [u16At_take (by omega)]
    exact hu16a
  have h4 : u16At (data.take k) 6 = some count := by
    rw [u16At_take (by omega)]
    exact hu16b
  have h5 : parseEntries (data.take k) count 8 = .error .tableReadError :=
    parseEntries_truncate hpe hk8 hke
  simp [parseGscore, h1, h2, h3, h4, h5]
  omega

/-- A container whose single entry points its payload at offset 100, size 5,
while the whole container is only 21 bytes long: the entry table itself parses. -/
def oobContainer : List Nat :=
  [82, 67, 83, 71, 0, 0, 1, 0,
   0, 0, 1, 0, 97,
   100, 0, 0, 0, 5, 0, 0, 0]

/-- A well-formed 21-byte container (entry "a", empty payload at offset 21)
used to witness the header-table truncation behaviour. -/
def truncContainer : List Nat :=
  [82, 67, 83, 71, 0, 0, 1, 0,
   0, 0, 1, 0, 97,
   21, 0, 0, 0, 0, 0, 0, 0]

/-- Counterexample to C5 as stated: `oobContainer`'s entry table parses but its
payload range `[100, 105)` lies entirely past the 21-byte buffer end; extraction
nevertheless succeeds, silently writing an empty (truncated) payload file — the
claimed `BundleFormatError` is never raised for out-of-bounds payload reads. -/
theorem claim5_counterexample :
    parseGscore oobContainer = .ok (0, 1, [⟨0, [97], 100, 5⟩], 21) ∧
      oobContainer.length = 21 ∧
      extractGscore oobContainer = .ok [([[97]], [])] :=
  ⟨rfl, rfl, rfl⟩

/-- C5 as amended: truncating a parsed container anywhere strictly inside the
entry table (at or past the 8-byte header) fails with the table-read
`BundleFormatError`; but a payload range extending past the buffer end does
not fail — extraction succeeds for every container whose entry table parses,
and each payload is silently clamped to the bytes available in the buffer. -/
theorem claim5_amended :
    (∀ (data : List Nat) (ver count : Nat) (es : List BundleEntry) (e k : Nat),
      parseGscore data = .ok (ver, count, es, e) → 8 ≤ k → k < e →
        parseGscore (data.take k) = .error .tableReadError) ∧
    (∀ (data : List Nat) (ver count : Nat) (es : List BundleEntry) (e : Nat),
      parseGscore data = .ok (ver, count, es, e) →
        extractGscore data =
          .ok (es.map (fun en => (en.name.splitOn 47, sliceAt data en.payloadOff en.size))) ∧
        ∀ en ∈ es, (sliceAt data en.payloadOff en.size).length =
          min en.size (data.length - en.payloadOff)) := by
  constructor
  · intro data ver count es e k hp hk8 hke
    exact parseGscore_truncate hp hk8 hke
  · intro data ver count es e hp
    constructor
    · simp [extractGscore, hp]
    · intro en _
      simp only [sliceAt, List.length_take, List.length_drop]

/-- Witness for C5's amended statement: truncating `truncContainer` to 12 bytes
(inside the entry table) errors, and extracting `oobContainer` clamps. -/
theorem claim5_amended_witness :
    parseGscore (truncContainer.take 12) = .error .tableReadError ∧
      extractGscore oobContainer =
        .ok [([97].splitOn 47, sliceAt oobContainer 100 5)] := by
  constructor
  · exact claim5_amended.1 truncContainer 0 1 [⟨0, [97], 21, 0⟩] 21 12 rfl
      (by decide) (by decide)
  · exact (claim5_amended.2 oobContainer 0 1 [⟨0, [97], 100, 5⟩] 21 rfl).1

/-! ### Claim C6: container serialization (spec-modelled) and round-trip -/

/-- Little-endian `u16` serialization. -/
def u16Bytes (n : Nat) : List Nat := [n % 256, n / 256 % 256]

/-- Little-endian `u32` serialization. -/
def u32Bytes (n : Nat) : List Nat :=
  [n % 256, n / 256 % 256, n / 65536 % 256, n / 16777216 % 256]

theorem u16Bytes_length (n : Nat) : (u16Bytes n).length = 2 := rfl

theorem u32Bytes_length (n : Nat) : (u32Bytes n).length = 4 := rfl

/-- An entry to be packed: kind tag, UTF-8 name bytes, payload bytes. -/
structure PackEntry where
  kind : Nat
  name : List Nat
  payload : List Nat
deriving DecidableEq, Repr

/-- Modelled from the spec: the repository ships no packer, so the entry table
is serialized per the spec's bit-exact container layout (§6): for each entry
`u16 kind, u16 nameLen, name bytes, u32 payloadOffset, u32 payloadSize`, with
`payloadOffset` the absolute position its payload will occupy. -/
def packTable : Nat → List PackEntry → List Nat
  | _, [] => []
  | po, e :: rest =>
      u16Bytes e.kind ++ u16Bytes e.name.length ++ e.name ++ u32Bytes po ++
        u32Bytes e.payload.length ++ packTable (po + e.payload.length) rest

/-- Byte size of the serialized entry table. -/
def tableLen (es : List PackEntry) : Nat := (es.map (fun e => 12 + e.name.length)).sum

/-- Total payload byte count. -/
def payloadSum (es : List PackEntry) : Nat := (es.map (fun e => e.payload.length)).sum

/-- Modelled from the spec: a full container is the 8-byte header
(`u32 magic = 0x47534352`, `u16 version`, `u16 count`) followed by the entry
table and then the concatenated payloads. -/
def packGscore (ver : Nat) (es : List PackEntry) : List Nat :=
  u32Bytes 0x47534352 ++ u16Bytes ver ++ u16Bytes es.length ++
    packTable (8 + tableLen es) es ++ (es.map (fun e => e.payload)).flatten

/-- The entries the parser should recover from a packed table whose first
payload sits at absolute offset `po`. -/
def expectedEntries : Nat → List PackEntry → List BundleEntry
  | _, [] => []
  | po, e :: rest =>
      ⟨e.kind, e.name, po, e.payload.length⟩ :: expectedEntries (po + e.payload.length) rest

theorem packTable_length (es : List PackEntry) :
    ∀ po : Nat, (packTable po es).length = tableLen es := by
  induction es with
  | nil => intro po; simp [packTable, tableLen]
  | cons e rest ih =>
    intro po
    simp [packTable, tableLen, ih, List.length_append, u16Bytes_length, u32Bytes_length]
    omega

theorem u16At_append (pre rest : List Nat) (n : Nat) (h : n < 65536) :
    u16At (pre ++ (u16Bytes n ++ rest)) pre.length = some n := by
  unfold u16At u16Bytes
  have h0 : (pre ++ ([n % 256, n / 256 % 256] ++ rest))[pre.length]? = some (n % 256) := by
    have := getElem?_append_add pre ([n % 256, n / 256 % 256] ++ rest) 0
    simpa using this
  have h1 : (pre ++ ([n % 256, n / 256 % 256] ++ rest))[pre.length + 1]? =
      some (n / 256 % 256) := by
    have := getElem?_append_add pre ([n % 256, n / 256 % 256] ++ rest) 1
    simpa using this
  rw [h0, h1]
  have harith : n % 256 + 256 * (n / 256 % 256) = n := by omega
  simp [harith]

theorem u32At_append (pre rest : List Nat) (n : Nat) (h : n < 4294967296) :
    u32At (pre ++ (u32Bytes n ++ rest)) pre.length = some n := by
  unfold u32At u32Bytes
  have h0 : (pre ++ ([n % 256, n / 256 % 256, n / 65536 % 256, n / 16777216 % 256] ++
      rest))[pre.length]? = some (n % 256) := by
    have := getElem?_append_add pre
      ([n % 256, n / 256 % 256, n / 65536 % 256, n / 16777216 % 256] ++ rest) 0
    simpa using this
  have h1 : (pre ++ ([n % 256, n / 256 % 256, n / 65536 % 256, n / 16777216 % 256] ++
      rest))[pre.length + 1]? = some (n / 256 % 256) := by
    have := getElem?_append_add pre
      ([n % 256, n / 256 % 256, n / 65536 % 256, n / 16777216 % 256] ++ rest) 1
    simpa using this
  have h2 : (pre ++ ([n % 256, n / 256 % 256, n / 65536 % 256, n / 16777216 % 256] ++
      rest))[pre.length + 2]? = some (n / 65536 % 256) := by
    have := getElem?_append_add pre
      ([n % 256, n / 256 % 256, n / 65536 % 256, n / 16777216 % 256] ++ rest) 2
    simpa using this
  have h3 : (pre ++ ([n % 256, n / 256 % 256, n / 65536 % 256, n / 16777216 % 256] ++
      rest))[pre.length + 3]? = some (n / 16777216 % 256) := by
    have := getElem?_append_add pre
      ([n % 256, n / 256 % 256, n / 65536 % 256, n / 16777216 % 256] ++ rest) 3
    simpa using this
  rw [h0, h1, h2, h3]
  have harith : n % 256 + 256 * (n / 256 % 256) + 65536 * (n / 65536 % 256) +
      16777216 * (n / 16777216 % 256) = n := by omega
  simp [harith]

theorem sliceAt_append (pre mid rest : List Nat) :
    sliceAt (pre ++ (mid ++ rest)) pre.length mid.length = mid := by
  unfold sliceAt
  rw [List.drop_left, List.take_left]

theorem tableLen_cons (e : PackEntry) (rest : List PackEntry) :
    tableLen (e :: rest) = 12 + e.name.length + tableLen rest := by
  simp [tableLen]

theorem payloadSum_cons (e : PackEntry) (rest : List PackEntry) :
    payloadSum (e :: rest) = e.payload.length + payloadSum rest := by
  simp [payloadSum]

/-- The entry-table loop of `load_from_gscore` inverts the spec-modelled table
serializer, wherever the serialized table sits inside a larger buffer. -/
theorem parseEntries_packTable (es : List PackEntry) :
    ∀ (po : Nat) (pre rest : List Nat),
      (∀ e ∈ es, e.kind < 65536 ∧ e.name.length < 65536 ∧ validUtf8 e.name = true) →
      po + payloadSum es < 4294967296 →
      parseEntries (pre ++ (packTable po es ++ rest)) es.length pre.length =
        .ok (expectedEntries po es, pre.length + tableLen es) := by
  induction es with
  | nil =>
    intro po pre rest _ _
    simp [packTable, tableLen, expectedEntries, parseEntries_zero]
  | cons e rest' ih =>
    rcases e with ⟨k, nm, pl⟩
    intro po pre rest hb hpo
    have hk : k < 65536 := (hb ⟨k, nm, pl⟩ (List.mem_cons_self _ _)).1
    have hnl : nm.length < 65536 := (hb ⟨k, nm, pl⟩ (List.mem_cons_self _ _)).2.1
    have hnv : validUtf8 nm = true := (hb ⟨k, nm, pl⟩ (List.mem_cons_self _ _)).2.2
    have hb' : ∀ x ∈ rest', x.kind < 65536 ∧ x.name.length < 65536 ∧
        validUtf8 x.name = true :=
      fun x hx => hb x (List.mem_cons_of_mem _ hx)
    have hsum : po + (pl.length + payloadSum rest') < 4294967296 := by
      rw [payloadSum_cons] at hpo
      simpa using hpo
    have hpo32 : po < 4294967296 := by omega
    have r1 : u16At (pre ++ (u16Bytes k ++ (u16Bytes nm.length ++ (nm ++ (u32Bytes po ++
        (u32Bytes pl.length ++ (packTable (po + pl.length) rest' ++ rest)))))))
        pre.length = some k :=
      u16At_append pre _ k hk
    have hlen2 : (pre ++ u16Bytes k).length = pre.length + 2 := by
      simp [u16Bytes_length]
    have r2 : u16At (pre ++ (u16Bytes k ++ (u16Bytes nm.length ++ (nm ++ (u32Bytes po ++
        (u32Bytes pl.length ++ (packTable (po + pl.length) rest' ++ rest)))))))
        (pre.length + 2) = some nm.length := by
      have raw := u16At_append (pre ++ u16Bytes k)
        (nm ++ (u32Bytes po ++ (u32Bytes pl.length ++
          (packTable (po + pl.length) rest' ++ rest)))) nm.length hnl
      rw [hlen2] at raw
      simpa only [List.append_assoc] using raw
    have hlen3 : (pre ++ u16Bytes k ++ u16Bytes nm.length).length = pre.length + 4 := by
      simp [u16Bytes_length]
    have r3 : sliceAt (pre ++ (u16Bytes k ++ (u16Bytes nm.length ++ (nm ++ (u32Bytes po ++
        (u32Bytes pl.length ++ (packTable (po + pl.length) rest' ++ rest)))))))
        (pre.length + 4) nm.length = nm := by
      have raw := sliceAt_append (pre ++ u16Bytes k ++ u16Bytes nm.length) nm
        (u32Bytes po ++ (u32Bytes pl.length ++ (packTable (po + pl.length) rest' ++ rest)))
      rw [hlen3] at raw
      simpa only [List.append_assoc] using raw
    have hlen4 : (pre ++ u16Bytes k ++ u16Bytes nm.length ++ nm).length =
        pre.length + 4 + nm.length := by
      simp [u16Bytes_length]
      omega
    have r4 : u32At (pre ++ (u16Bytes k ++ (u16Bytes nm.length ++ (nm ++ (u32Bytes po ++
        (u32Bytes pl.length ++ (packTable (po + pl.length) rest' ++ rest)))))))
        (pre.length + 4 + nm.length) = some po := by
      have raw := u32At_append (pre ++ u16Bytes k ++ u16Bytes nm.length ++ nm)
        (u32Bytes pl.length ++ (packTable (po + pl.length) rest' ++ rest)) po hpo32
      rw [hlen4] at raw
      simpa only [List.append_assoc] using raw
    have hlen5 : (pre ++ u16Bytes k ++ u16Bytes nm.length ++ nm ++ u32Bytes po).length =
        pre.length + 4 + nm.length + 4 := by
      simp [u16Bytes_length, u32Bytes_length]
      omega
    have r5 : u32At (pre ++ (u16Bytes k ++ (u16Bytes nm.length ++ (nm ++ (u32Bytes po ++
        (u32Bytes pl.length ++ (packTable (po + pl.length) rest' ++ rest)))))))
        (pre.length + 4 + nm.length + 4) = some pl.length := by
      have raw := u32At_append (pre ++ u16Bytes k ++ u16Bytes nm.length ++ nm ++ u32Bytes po)
        (packTable (po + pl.length) rest' ++ rest) pl.length (by omega)
      rw [hlen5] at raw
      simpa only [List.append_assoc] using raw
    have hlen6 : (pre ++ u16Bytes k ++ u16Bytes nm.length ++ nm ++ u32Bytes po ++
        u32Bytes pl.length).length = pre.length + 4 + nm.length + 8 := by
      simp [u16Bytes_length, u32Bytes_length]
      omega
    have rec6 : parseEntries (pre ++ (u16Bytes k ++ (u16Bytes nm.length ++ (nm ++
        (u32Bytes po ++ (u32Bytes pl.length ++ (packTable (po + pl.length) rest' ++ rest)))))))
        rest'.length (pre.length + 4 + nm.length + 8) =
        .ok (expectedEntries (po + pl.length) rest',
          pre.length + 4 + nm.length + 8 + tableLen rest') := by
      have raw := ih (po + pl.length)
        (pre ++ u16Bytes k ++ u16Bytes nm.length ++ nm ++ u32Bytes po ++ u32Bytes pl.length)
        rest hb' (by omega)
      rw [hlen6] at raw
      simpa only [List.append_assoc] using raw
    show parseEntries _ (rest'.length + 1) pre.length = _
    rw [show packTable po (⟨k, nm, pl⟩ :: rest') = u16Bytes k ++ u16Bytes nm.length ++ nm ++
      u32Bytes po ++ u32Bytes pl.length ++ packTable (po + pl.length) rest' from rfl]
    simp only [List.append_assoc]
    unfold parseEntries
    rw [r1, r2]
    dsimp only
    rw [r3, if_pos hnv]
    rw [r4, r5, rec6]
    dsimp only
    rw [show expectedEntries po (⟨k, nm, pl⟩ :: rest') =
      ⟨k, nm, po, pl.length⟩ :: expectedEntries (po + pl.length) rest' from rfl,
      tableLen_cons]
    simp only [Except.ok.injEq, Prod.mk.injEq, List.cons.injEq]
    exact ⟨trivial, by omega⟩

theorem packGscore_assoc (ver : Nat) (es : List PackEntry) :
    packGscore ver es = u32Bytes 0x47534352 ++ (u16Bytes ver ++ (u16Bytes es.length ++
      (packTable (8 + tableLen es) es ++ (es.map (fun e => e.payload)).flatten))) := by
  rw [packGscore, List.append_assoc, List.append_assoc, List.append_assoc]

theorem u32At_magic (T : List Nat) :
    u32At (u32Bytes 0x47534352 ++ T) 0 = some 0x47534352 := by
  have raw := u32At_append [] T 0x47534352 (by norm_num)
  simpa using raw

theorem u16At_after_magic (T : List Nat) (n : Nat) (h : n < 65536) :
    u16At (u32Bytes 0x47534352 ++ (u16Bytes n ++ T)) 4 = some n := by
  have raw := u16At_append (u32Bytes 0x47534352) T n h
  rw [u32Bytes_length] at raw
  exact raw

theorem u16At_after_ver (ver : Nat) (T : List Nat) (n : Nat) (h : n < 65536) :
    u16At (u32Bytes 0x47534352 ++ (u16Bytes ver ++ (u16Bytes n ++ T))) 6 = some n := by
  have raw := u16At_append (u32Bytes 0x47534352 ++ u16Bytes ver) T n h
  have hl : (u32Bytes 0x47534352 ++ u16Bytes ver).length = 6 := by
    simp [u32Bytes_length, u16Bytes_length]
  rw [hl] at raw
  simpa [List.append_assoc] using raw

theorem packGscore_length_ge (ver : Nat) (es : List PackEntry) :
    ¬ (packGscore ver es).length < 8 := by
  simp [packGscore, List.length_append, u16Bytes_length, u32Bytes_length]
  omega

theorem parseEntries_packed_header (ver : Nat) (es : List PackEntry)
    (hb : ∀ e ∈ es, e.kind < 65536 ∧ e.name.length < 65536 ∧ validUtf8 e.name = true)
    (htot : 8 + tableLen es + payloadSum es < 4294967296) :
    parseEntries (packGscore ver es) es.length 8 =
      .ok (expectedEntries (8 + tableLen es) es, 8 + tableLen es) := by
  have hlenhdr : (u32Bytes 0x47534352 ++ u16Bytes ver ++ u16Bytes es.length).length = 8 := by
    simp [u32Bytes_length, u16Bytes_length]
  have raw := parseEntries_packTable es (8 + tableLen es)
    (u32Bytes 0x47534352 ++ u16Bytes ver ++ u16Bytes es.length)
    (es.map (fun e => e.payload)).flatten hb (by omega)
  rw [hlenhdr] at raw
  rw [packGscore_assoc]
  simpa [List.append_assoc] using raw

/-- Any buffer whose header reads succeed and whose entry table parses yields
exactly that parse result. -/
theorem parseGscore_of_reads (data : List Nat) (ver cnt : Nat) (es : List BundleEntry)
    (e : Nat) (hlen : ¬ data.length < 8) (h32 : u32At data 0 = some 0x47534352)
    (hv : u16At data 4 = some ver) (hc : u16At data 6 = some cnt)
    (hpe : parseEntries data cnt 8 = .ok (es, e)) :
    parseGscore data = .ok (ver, cnt, es, e) := by
  simp [parseGscore, hlen, h32, hv, hc, hpe]

/-- Header-level: parsing a packed container recovers version, count and the
expected entry table. -/
theorem parseGscore_packGscore (ver : Nat) (es : List PackEntry)
    (hver : ver < 65536) (hcount : es.length < 65536)
    (hb : ∀ e ∈ es, e.kind < 65536 ∧ e.name.length < 65536 ∧ validUtf8 e.name = true)
    (htot : 8 + tableLen es + payloadSum es < 4294967296) :
    parseGscore (packGscore ver es) =
      .ok (ver, es.length, expectedEntries (8 + tableLen es) es, 8 + tableLen es) := by
  refine parseGscore_of_reads _ _ _ _ _ (packGscore_length_ge ver es) ?_ ?_ ?_
    (parseEntries_packed_header ver es hb htot)
  · rw [packGscore_assoc]
    exact u32At_magic _
  · rw [packGscore_assoc]
    exact u16At_after_magic _ ver hver
  · rw [packGscore_assoc]
    exact u16At_after_ver ver _ es.length hcount

/-- Extraction slices of the expected entries are exactly the packed payloads. -/
theorem expectedEntries_extract (es : List PackEntry) :
    ∀ pre : List Nat,
      (expectedEntries pre.length es).map
        (fun en => (en.name.splitOn 47,
          sliceAt (pre ++ (es.map (fun e => e.payload)).flatten) en.payloadOff en.size)) =
      es.map (fun e => (e.name.splitOn 47, e.payload)) := by
  induction es with
  | nil => intro pre; simp [expectedEntries]
  | cons e rest ih =>
    intro pre
    rcases e with ⟨k, nm, pl⟩
    have hfirst : sliceAt (pre ++ (pl ++ (rest.map (fun e => e.payload)).flatten))
        pre.length pl.length = pl :=
      sliceAt_append pre pl (rest.map (fun e => e.payload)).flatten
    have hrest := ih (pre ++ pl)
    rw [List.length_append] at hrest
    simp only [expectedEntries, List.map_cons, List.flatten_cons, List.append_assoc] at *
    rw [hfirst, hrest]

/-- A container whose single entry name is the lone byte 0xFF — invalid UTF-8 —
on which `name.decode('utf-8')` raises, caught as the table-read error. -/
def badNameContainer : List Nat :=
  [82, 67, 83, 71, 0, 0, 1, 0,
   0, 0, 1, 0, 255,
   21, 0, 0, 0, 0, 0, 0, 0]

/-- The `UnicodeDecodeError` path of the entry loop: an undecodable name makes
the table parse fail, so nothing is extracted. -/
theorem badNameContainer_errors :
    parseGscore badNameContainer = .error .tableReadError ∧
      extractGscore badNameContainer = .error .tableReadError := ⟨rfl, rfl⟩

/-- C6: for every container whose entry table parses (names decoding as UTF-8,
as `load_from_gscore` requires) with all payload ranges in bounds, extraction
writes exactly `bytes[payloadOffset : payloadOffset+payloadSize]` to the file
path obtained by splitting the entry name at `/` separators (each written blob
having the full declared size); consequently packing entries with UTF-8 names
in the spec's layout and extracting the result preserves every entry's content
and relative path (round-trip). -/
theorem claim6_roundtrip :
    (∀ (data : List Nat) (ver count : Nat) (es : List BundleEntry) (e : Nat),
      parseGscore data = .ok (ver, count, es, e) →
      (∀ en ∈ es, en.payloadOff + en.size ≤ data.length) →
        extractGscore data =
          .ok (es.map (fun en => (en.name.splitOn 47, sliceAt data en.payloadOff en.size))) ∧
        ∀ en ∈ es, (sliceAt data en.payloadOff en.size).length = en.size) ∧
    (∀ (ver : Nat) (es : List PackEntry), ver < 65536 → es.length < 65536 →
      (∀ e ∈ es, e.kind < 65536 ∧ e.name.length < 65536 ∧ validUtf8 e.name = true) →
      8 + tableLen es + payloadSum es < 4294967296 →
        extractGscore (packGscore ver es) =
          .ok (es.map (fun e => (e.name.splitOn 47, e.payload)))) := by
  constructor
  · intro data ver count es e hp hbounds
    refine ⟨by simp [extractGscore, hp], ?_⟩
    intro en hen
    have := hbounds en hen
    simp only [sliceAt, List.length_take, List.length_drop]
    omega
  · intro ver es hver hcount hb htot
    have hp := parseGscore_packGscore ver es hver hcount hb htot
    have hpre : (u32Bytes 0x47534352 ++ u16Bytes ver ++ u16Bytes es.length ++
        packTable (8 + tableLen es) es).length = 8 + tableLen es := by
      simp [u32Bytes_length, u16Bytes_length, packTable_length]
      omega
    have hx := expectedEntries_extract es
      (u32Bytes 0x47534352 ++ u16Bytes ver ++ u16Bytes es.length ++
        packTable (8 + tableLen es) es)
    rw [hpre] at hx
    have hx' : (expectedEntries (8 + tableLen es) es).map
        (fun en => (en.name.splitOn 47,
          sliceAt (packGscore ver es) en.payloadOff en.size)) =
        es.map (fun e => (e.name.splitOn 47, e.payload)) := by
      simpa [packGscore, List.append_assoc] using hx
    simp [extractGscore, hp, hx']

/-- A one-entry bundle with name "a/b" used to witness the round-trip. -/
def rtEntries : List PackEntry := [⟨1, [97, 47, 98], [5, 6]⟩]

/-- Witness for C6: packing and extracting `rtEntries` recovers its content at
relative path `a/b`, and extracting the in-bounds `truncContainer` writes the
exact (empty) payload slice. -/
theorem claim6_roundtrip_witness :
    extractGscore (packGscore 2 rtEntries) = .ok [([[97], [98]], [5, 6])] ∧
      extractGscore truncContainer = .ok [([[97]], [])] := by
  constructor
  · exact (claim6_roundtrip.2 2 rtEntries (by decide) (by decide) (by decide)
      (by decide)).trans rfl
  · exact ((claim6_roundtrip.1 truncContainer 0 1 [⟨0, [97], 21, 0⟩] 21 rfl
      (by decide)).1).trans rfl

/-! ### A small filesystem model

Paths are lists of components. A filesystem is a set of directories plus a map
from file paths to byte contents, mirroring exactly the `os`/`shutil` calls the
loader makes: `os.makedirs(..., exist_ok=True)`, `open(...,'w'/'wb').write`,
`os.remove`, `shutil.rmtree(..., ignore_errors=True)`, `os.listdir`,
`os.path.isdir`, `os.path.exists`, `os.path.getsize`. -/

/-- Path components. -/
abbrev FPath := List String

/-- Filesystem: directory set and file map. -/
structure FS where
  dirs : List FPath
  files : List (FPath × List Nat)
deriving DecidableEq

/-- All paths with an entry (directory or file). -/
def FS.entryPaths (fs : FS) : List FPath :=
  fs.dirs ++ fs.files.map (fun f => f.1)

/-- `os.path.isdir`. -/
def FS.isDir (fs : FS) (p : FPath) : Bool := fs.dirs.contains p

/-- `os.path.exists`. -/
def FS.existsPath (fs : FS) (p : FPath) : Bool := fs.entryPaths.contains p

/-- Content of the file at `p`, if any. -/
def FS.getFile (fs : FS) (p : FPath) : Option (List Nat) :=
  (fs.files.find? (fun f => f.1 = p)).map (fun f => f.2)

/-- `os.path.getsize` (0 for a missing file; only ever used under an existence
check in the code). -/
def FS.fileSize (fs : FS) (p : FPath) : Nat := ((fs.getFile p).getD []).length

/-- The chain of non-empty initial segments of `p` (the directories
`os.makedirs` creates). -/
def pathChain (p : FPath) : List FPath :=
  (List.range p.length).map (fun i => p.take (i + 1))

/-- `os.makedirs(p, exist_ok=True)`: create `p` and all intermediate dirs. -/
def FS.makedirs (fs : FS) (p : FPath) : FS :=
  ⟨(pathChain p).filter (fun q => !fs.dirs.contains q) ++ fs.dirs, fs.files⟩

/-- `open(p, 'w'/'wb').write(c)`: create or overwrite the file at `p`. -/
def FS.writeFile (fs : FS) (p : FPath) (c : List Nat) : FS :=
  ⟨fs.dirs, (p, c) :: fs.files.filter (fun f => f.1 ≠ p)⟩

/-- `os.remove p`. -/
def FS.removeFile (fs : FS) (p : FPath) : FS :=
  ⟨fs.dirs, fs.files.filter (fun f => f.1 ≠ p)⟩

/-- `shutil.rmtree(p, ignore_errors=True)`: drop `p` and everything below it. -/
def FS.rmtree (fs : FS) (p : FPath) : FS :=
  ⟨fs.dirs.filter (fun d => !(p.isPrefixOf d)),
   fs.files.filter (fun f => !(p.isPrefixOf f.1))⟩

/-- `os.listdir p`: names of the immediate children of `p`. -/
def FS.childNames (fs : FS) (p : FPath) : List String :=
  (fs.entryPaths.filterMap
    (fun q => if p.isPrefixOf q then (q.drop p.length).head? else none)).dedup

/-- Well-formed filesystem: every proper non-empty initial segment of an entry
path is a directory (no file is nested under a missing directory). -/
def FS.Wf (fs : FS) : Prop :=
  ∀ q ∈ fs.entryPaths, ∀ k < q.length, 0 < k → q.take k ∈ fs.dirs

instance (fs : FS) : Decidable fs.Wf := by
  unfold FS.Wf
  infer_instance

/-! ### Virtual flash layout, from `ModulesLoader.initialize_virtual_flash` -/

/-- The fixed base directory standing in for `<temp>/vflash`. -/
def vflashBase : FPath := ["vflash"]

/-- The info dictionary `initialize_virtual_flash` returns. -/
structure VFlashInfo where
  path : FPath
  partitions : List String
  ros_slots : List String
deriving DecidableEq

/-- The constant layout info the code always builds. -/
def standardInfo : VFlashInfo :=
  ⟨vflashBase, ["dev_flash", "dev_flash2", "dev_flash3"], ["ROS0", "ROS1"]⟩

/-- Loader state: the on-disk filesystem, the cached `_vflash_info`, and the
`_active_ros` marker. -/
structure VState where
  fs : FS
  vflashInfo : Option VFlashInfo
  activeRos : Option String
deriving DecidableEq

/-- Bytes of the `"stub"` placeholder content. -/
def stubBytes : List Nat := [115, 116, 117, 98]

/-- Bytes of the bootloader version marker line. -/
def versionBytes : List Nat :=
  [71, 83, 67, 88, 32, 80, 83, 51, 32, 66, 111, 111, 116, 108, 111, 97, 100, 101,
   114, 32, 40, 118, 105, 114, 116, 117, 97, 108, 41, 10]

/-- The 1024 zero bytes of `registry/xRegistry.sys`. -/
def registryBytes : List Nat := List.replicate 1024 0

/-- `initialize_virtual_flash`: create base, partition/ROS/bootloader/registry
directories, then (re)write every placeholder artifact; cache and return the
layout info.  The code runs the seeding block on every call — there is no
early return on a cached layout. -/
def initialize_virtual_flash (s : VState) : VState × VFlashInfo :=
  let fs := s.fs.makedirs vflashBase
  let fs := fs.makedirs (vflashBase ++ ["dev_flash"])
  let fs := fs.makedirs (vflashBase ++ ["dev_flash2"])
  let fs := fs.makedirs (vflashBase ++ ["dev_flash3"])
  let fs := fs.makedirs (vflashBase ++ ["ros0"])
  let fs := fs.makedirs (vflashBase ++ ["ros1"])
  let fs := fs.makedirs (vflashBase ++ ["bootloader"])
  let fs := fs.makedirs (vflashBase ++ ["registry"])
  let fs := fs.writeFile (vflashBase ++ ["bootloader", "version.txt"]) versionBytes
  let fs := fs.writeFile (vflashBase ++ ["ros0", "lv0.self"]) stubBytes
  let fs := fs.writeFile (vflashBase ++ ["ros0", "appldr.self"]) stubBytes
  let fs := fs.writeFile (vflashBase ++ ["ros1", "lv0.self"]) stubBytes
  let fs := fs.writeFile (vflashBase ++ ["ros1", "appldr.self"]) stubBytes
  let fs := fs.writeFile (vflashBase ++ ["registry", "xRegistry.sys"]) registryBytes
  ({ s with fs := fs, vflashInfo := some standardInfo }, standardInfo)

/-- `get_vflash_info`: return the cached layout, initializing lazily. -/
def get_vflash_info (s : VState) : VState × VFlashInfo :=
  match s.vflashInfo with
  | some i => (s, i)
  | none => initialize_virtual_flash s

/-- `mount_virtual_flash`: logical transition only; always succeeds in the
absence of host I/O errors. -/
def mount_virtual_flash (s : VState) : VState × Bool :=
  let (s, _) := get_vflash_info s
  (s, true)

/-- A stub file is "valid" when it exists with non-zero size
(`os.path.exists(p) and os.path.getsize(p) > 0`). -/
def stubValid (fs : FS) (p : FPath) : Bool :=
  fs.existsPath p && decide (0 < fs.fileSize p)

/-- Validity of a ROS slot: its `lv0.self` stub is valid. -/
def slotLv0Valid (fs : FS) (base : FPath) (slot : String) : Bool :=
  stubValid fs (base ++ [slot, "lv0.self"])

/-- The candidate order of `select_ros_slot`: the code puts `preferred` first
only when it actually is one of the two slot names. -/
def rosCandidates (preferred : Option String) : List String :=
  match preferred with
  | some p =>
      if p = "ros0" ∨ p = "ros1" then
        p :: (["ros0", "ros1"].filter (fun c => c ≠ p))
      else ["ros0", "ros1"]
  | none => ["ros0", "ros1"]

/-- `select_ros_slot`: first valid candidate becomes `_active_ros` and is
returned; otherwise `_active_ros` is cleared and `None` returned. -/
def select_ros_slot (preferred : Option String) (s : VState) : VState × Option String :=
  let (s1, info) := get_vflash_info s
  match (rosCandidates preferred).find? (fun slot => slotLv0Valid s1.fs info.path slot) with
  | some slot => ({ s1 with activeRos := some slot }, some slot)
  | none => ({ s1 with activeRos := none }, none)

/-- `_verify_lv0_and_appldr`: both stubs of the active slot must be valid;
fails when no slot is active. -/
def verify_lv0_and_appldr (s : VState) : VState × Bool :=
  let (s1, info) := get_vflash_info s
  match s1.activeRos with
  | none => (s1, false)
  | some slot =>
      (s1, stubValid s1.fs (info.path ++ [slot, "lv0.self"]) &&
        stubValid s1.fs (info.path ++ [slot, "appldr.self"]))

/-- `validate_boot_chain`: the static checklist always passes; then ROS slot
selection, verification, and one fallback retry preferring the other slot. -/
def validate_boot_chain (s : VState) : VState × Bool :=
  let (s1, sel) := select_ros_slot none s
  match sel with
  | some selected =>
      let (s2, v) := verify_lv0_and_appldr s1
      if v then (s2, true)
      else
        let other := if selected = "ros0" then "ros1" else "ros0"
        let (s3, alt) := select_ros_slot (some other) s2
        match alt with
        | some _ =>
            let (s4, v2) := verify_lv0_and_appldr s3
            (s4, v2)
        | none => (s3, false)
  | none => (s1, false)

/-! ### Native module world and the boot stages -/

/-- Outcome of every native call the boot stages can make: which modules are in
`self.loaded`, which entry points resolve, and what the entry points return. -/
structure NativeWorld where
  sysconLoaded : Bool
  sysconEntryPresent : Bool
  sysconResult : Bool
  bootloaderLoaded : Bool
  lv0EntryPresent : Bool
  lv0Result : Bool
  hypervisorLoaded : Bool
  lv1EntryPresent : Bool
  lv1Result : Bool
  cpuLoaded : Bool
  gpuLoaded : Bool
deriving DecidableEq

/-- `perform_hardware_detection`: a static capability summary, never empty. -/
def perform_hardware_detection : List (String × String) :=
  [("cpu", "Cell Broadband Engine"), ("memory", "512 MB"),
   ("gpu", "RSX Reality Synthesizer"), ("storage", "Blu-ray/DVD/CD"),
   ("connectivity", "4x USB 2.0")]

/-- `initialize_syscon`: native initializer when the SYSCON module is loaded
(a missing entry point fails the stage), else the simulated-success fallback. -/
def initialize_syscon (w : NativeWorld) : Bool :=
  if w.sysconLoaded then
    (if w.sysconEntryPresent then w.sysconResult else false)
  else true

/-- `boot_lv0_stage`: bootloader module's LV0 entry; module or entry point
absence is a failure. -/
def boot_lv0_stage (w : NativeWorld) : Bool :=
  if w.bootloaderLoaded then
    (if w.lv0EntryPresent then w.lv0Result else false)
  else false

/-- `boot_lv1_stage`: hypervisor module's LV1 entry; same policy as LV0. -/
def boot_lv1_stage (w : NativeWorld) : Bool :=
  if w.hypervisorLoaded then
    (if w.lv1EntryPresent then w.lv1Result else false)
  else false

/-- `boot_lv2_stage`: no native call; succeeds iff CPU and GPU modules are
loaded. -/
def boot_lv2_stage (w : NativeWorld) : Bool :=
  w.cpuLoaded && w.gpuLoaded

/-- The seven stages of `execute_full_boot_sequence`, in their fixed order. -/
inductive Stage where
  | hardwareDetect
  | sysconInit
  | bootChainValidate
  | flashMount
  | lv0
  | lv1
  | lv2
deriving DecidableEq, Repr

/-- The full stage order. -/
def fullStageOrder : List Stage :=
  [.hardwareDetect, .sysconInit, .bootChainValidate, .flashMount, .lv0, .lv1, .lv2]

/-- `execute_full_boot_sequence`: runs the stages in order, halting at the
first failure; returns the final state, the aggregate result, and the list of
stages that were invoked. -/
def execute_full_boot_sequence (w : NativeWorld) (s : VState) :
    VState × Bool × List Stage :=
  if perform_hardware_detection.isEmpty then
    (s, false, [.hardwareDetect])
  else if ¬ initialize_syscon w then
    (s, false, [.hardwareDetect, .sysconInit])
  else
    let (s1, ok3) := validate_boot_chain s
    if ¬ ok3 then
      (s1, false, [.hardwareDetect, .sysconInit, .bootChainValidate])
    else
      let (s2, _info) := initialize_virtual_flash s1
      let (s3, mok) := mount_virtual_flash s2
      if ¬ mok then
        (s3, false, [.hardwareDetect, .sysconInit, .bootChainValidate, .flashMount])
      else if ¬ boot_lv0_stage w then
        (s3, false, [.hardwareDetect, .sysconInit, .bootChainValidate, .flashMount, .lv0])
      else if ¬ boot_lv1_stage w then
        (s3, false,
          [.hardwareDetect, .sysconInit, .bootChainValidate, .flashMount, .lv0, .lv1])
      else if ¬ boot_lv2_stage w then
        (s3, false, fullStageOrder)
      else
        (s3, true, fullStageOrder)

/-! ### Virtual-flash maintenance, from `format_virtual_flash` and
`clean_vflash_partition` -/

/-- The error type of the spec's `FlashError` taxonomy entry.  The Python code
re-raises only host I/O failures of `os.listdir`/`initialize`; per-entry
deletion failures are swallowed (`except Exception: pass`). -/
inductive FlashError where
  | formatError
deriving DecidableEq

/-- One iteration of the deletion loop shared by `format_virtual_flash` and
`clean_vflash_partition`: `rmtree` the entry when it is a directory
(`ignore_errors=True`), otherwise `os.remove` it; an `os.remove` that raises
(`canFail full = true`) is swallowed and the entry skipped. -/
def delStep (canFail : FPath → Bool) (dir : FPath) (fs : FS) (n : String) : FS :=
  let full := dir ++ [n]
  if fs.isDir full then fs.rmtree full
  else if canFail full then fs
  else fs.removeFile full

/-- The deletion loop over a fixed list of names (computed once, as
`os.listdir` is). -/
def delFold (canFail : FPath → Bool) (dir : FPath) : List String → FS → FS
  | [], fs => fs
  | n :: ns, fs => delFold canFail dir ns (delStep canFail dir fs n)

/-- The whole deletion pass: iterate over the names listed under `dir`. -/
def deleteChildren (canFail : FPath → Bool) (fs : FS) (dir : FPath) : FS :=
  delFold canFail dir (fs.childNames dir) fs

/-- `format_virtual_flash`: best-effort deletion of every entry directly under
the base path, clear the cached layout, re-run initialize and mount.  No code
path raises `FlashError` for a failed per-entry deletion. -/
def format_virtual_flash (canFail : FPath → Bool) (s : VState) :
    Except FlashError (VState × VFlashInfo) :=
  let (s1, info) := get_vflash_info s
  let s2 : VState := { s1 with fs := deleteChildren canFail s1.fs info.path,
                               vflashInfo := none }
  let (s3, newInfo) := initialize_virtual_flash s2
  let (s4, _) := mount_virtual_flash s3
  .ok (s4, newInfo)

/-- `clean_vflash_partition`: `False` when the named partition is not an
existing directory under the base path; otherwise best-effort deletion of its
contents (the directory itself retained). -/
def clean_vflash_partition (canFail : FPath → Bool) (partition : String) (s : VState) :
    VState × Bool :=
  let (s1, info) := get_vflash_info s
  let target := info.path ++ [partition]
  if s1.fs.isDir target then
    ({ s1 with fs := deleteChildren canFail s1.fs target }, true)
  else (s1, false)

/-! ### Recovery provisioning, from `ModulesLoader.boot_recovery` -/

/-- Native-side outcome switches for a `boot_recovery` call. -/
structure RecoveryWorld where
  recoveryLoaded : Bool
  recoveryEntryPresent : Bool
  entryRaises : Bool
  copyFails : Bool
deriving DecidableEq

/-- Recovery-visible state: the `GSCX_RECOVERY_PUP` binding, the filesystem,
`last_usb_dir` and the auto-created `_vusb_dir`. -/
structure RecState where
  env : Option FPath
  fs : FS
  lastUsbDir : Option FPath
  vusbDir : Option FPath
deriving DecidableEq

/-- Failures observable by `boot_recovery`'s caller: the re-raised preparation
exception, and an exception propagating out of the native entry point. -/
inductive RecoveryError where
  | prepareFailed
  | nativeRaised
deriving DecidableEq

/-- The auto-created temporary virtual-USB directory (`tempfile.mkdtemp`). -/
def tempUsbDir : FPath := ["gscx_usb"]

/-- The native-call section of `boot_recovery` together with its `finally`
block: the environment binding is cleared whether the recovery entry returns
or raises. -/
def runNativeRecovery (w : RecoveryWorld) (st : RecState) :
    RecState × Except RecoveryError Unit :=
  let raised := w.recoveryLoaded && w.recoveryEntryPresent && w.entryRaises
  ({ st with env := none }, if raised then .error .nativeRaised else .ok ())

/-- `boot_recovery`: with a firmware path, provision the virtual-USB directory,
copy the image as `PS3UPDAT.PUP` and export the binding (a copy failure
re-raises before the binding is set); with no path, clear any existing binding.
Then call the native entry under the guaranteed-cleanup block. -/
def boot_recovery (w : RecoveryWorld) (pupPath : Option FPath) (usbDir : Option FPath)
    (pupContent : List Nat) (st : RecState) : RecState × Except RecoveryError Unit :=
  match pupPath with
  | some _ =>
      let target := usbDir.getD tempUsbDir
      let st1 : RecState := { st with fs := st.fs.makedirs target,
                                      vusbDir := if usbDir.isSome then st.vusbDir
                                                 else some target }
      if w.copyFails then (st1, .error .prepareFailed)
      else
        let dest := target ++ ["PS3UPDAT.PUP"]
        let st2 : RecState := { st1 with fs := st1.fs.writeFile dest pupContent,
                                         env := some dest,
                                         lastUsbDir := some target }
        runNativeRecovery w st2
  | none =>
      runNativeRecovery w { st with env := none }

/-! ### Filesystem helper lemmas -/

theorem find?_filter_ne (p q : FPath) (hqp : q ≠ p) (l : List (FPath × List Nat)) :
    (l.filter (fun f => f.1 ≠ p)).find? (fun f => f.1 = q) =
      l.find? (fun f => f.1 = q) := by
  induction l with
  | nil => rfl
  | cons g t ih =>
    rw [List.filter_cons]
    by_cases hg : g.1 = p
    · rw [if_neg (by simp [hg]), ih]
      have hgq : ¬ g.1 = q := by
        rw [hg]
        exact fun he => hqp he.symm
      exact (List.find?_cons_of_neg _ (by simpa using hgq)).symm
    · rw [if_pos (by simp [hg])]
      by_cases hgq : g.1 = q
      · rw [List.find?_cons_of_pos _ (by simpa using hgq),
          List.find?_cons_of_pos _ (by simpa using hgq)]
      · rw [List.find?_cons_of_neg _ (by simpa using hgq),
          List.find?_cons_of_neg _ (by simpa using hgq)]
        exact ih

theorem getFile_write (fs : FS) (p q : FPath) (c : List Nat) :
    (fs.writeFile p c).getFile q = if q = p then some c else fs.getFile q := by
  unfold FS.writeFile FS.getFile
  by_cases hqp : q = p
  · subst hqp
    rw [if_pos rfl, List.find?_cons_of_pos _ (by simp)]
    rfl
  · rw [if_neg hqp,
      List.find?_cons_of_neg _ (by simp; exact fun he => hqp he.symm),
      find?_filter_ne p q hqp]

theorem getFile_makedirs (fs : FS) (p q : FPath) :
    (fs.makedirs p).getFile q = fs.getFile q := rfl

theorem getFile_some_existsPath {fs : FS} {p : FPath} {c : List Nat}
    (h : fs.getFile p = some c) : fs.existsPath p = true := by
  unfold FS.getFile at h
  rcases hf : fs.files.find? (fun f => decide (f.1 = p)) with _ | g
  · rw [hf] at h
    simp at h
  · have hmem := List.mem_of_find?_eq_some hf
    have hp := List.find?_some hf
    simp at hp
    unfold FS.existsPath FS.entryPaths
    have : p ∈ fs.dirs ++ fs.files.map (fun f => f.1) := by
      apply List.mem_append_right
      exact List.mem_map.mpr ⟨g, hmem, hp⟩
    simpa using this

theorem fileSize_of_getFile {fs : FS} {p : FPath} {c : List Nat}
    (h : fs.getFile p = some c) : fs.fileSize p = c.length := by
  simp [FS.fileSize, h]

theorem stubValid_of_getFile {fs : FS} {p : FPath} {c : List Nat}
    (h : fs.getFile p = some c) (hc : 0 < c.length) : stubValid fs p = true := by
  simp [stubValid, getFile_some_existsPath h, fileSize_of_getFile h, hc]

theorem dirs_makedirs (fs : FS) (p q : FPath) :
    q ∈ (fs.makedirs p).dirs ↔ q ∈ pathChain p ∨ q ∈ fs.dirs := by
  unfold FS.makedirs
  simp only [List.mem_append, List.mem_filter]
  constructor
  · rintro (⟨hc, _⟩ | hd)
    · exact Or.inl hc
    · exact Or.inr hd
  · rintro (hc | hd)
    · by_cases hmem : q ∈ fs.dirs
      · exact Or.inr hmem
      · exact Or.inl ⟨hc, by simpa using hmem⟩
    · exact Or.inr hd

theorem writeFile_dirs (fs : FS) (p : FPath) (c : List Nat) :
    (fs.writeFile p c).dirs = fs.dirs := rfl

/-! ### Claim C10: `initialize_virtual_flash` always re-seeds every artifact -/

theorem initialize_vflashInfo (s : VState) :
    ((initialize_virtual_flash s).1).vflashInfo = some standardInfo := rfl

theorem initialize_getFile_version (s : VState) :
    ((initialize_virtual_flash s).1).fs.getFile
      (vflashBase ++ ["bootloader", "version.txt"]) = some versionBytes := by
  simp [initialize_virtual_flash, getFile_write, getFile_makedirs]

theorem initialize_getFile_ros0_lv0 (s : VState) :
    ((initialize_virtual_flash s).1).fs.getFile
      (vflashBase ++ ["ros0", "lv0.self"]) = some stubBytes := by
  simp [initialize_virtual_flash, getFile_write, getFile_makedirs]

theorem initialize_getFile_ros0_appldr (s : VState) :
    ((initialize_virtual_flash s).1).fs.getFile
      (vflashBase ++ ["ros0", "appldr.self"]) = some stubBytes := by
  simp [initialize_virtual_flash, getFile_write, getFile_makedirs]

theorem initialize_getFile_ros1_lv0 (s : VState) :
    ((initialize_virtual_flash s).1).fs.getFile
      (vflashBase ++ ["ros1", "lv0.self"]) = some stubBytes := by
  simp [initialize_virtual_flash, getFile_write, getFile_makedirs]

theorem initialize_getFile_ros1_appldr (s : VState) :
    ((initialize_virtual_flash s).1).fs.getFile
      (vflashBase ++ ["ros1", "appldr.self"]) = some stubBytes := by
  simp [initialize_virtual_flash, getFile_write, getFile_makedirs]

theorem initialize_getFile_registry (s : VState) :
    ((initialize_virtual_flash s).1).fs.getFile
      (vflashBase ++ ["registry", "xRegistry.sys"]) = some registryBytes := by
  simp [initialize_virtual_flash, getFile_write, getFile_makedirs]

theorem stubBytes_length : stubBytes.length = 4 := rfl

theorem initialize_slots_valid (s : VState) :
    slotLv0Valid ((initialize_virtual_flash s).1).fs vflashBase "ros0" = true ∧
      slotLv0Valid ((initialize_virtual_flash s).1).fs vflashBase "ros1" = true := by
  constructor
  · exact stubValid_of_getFile (initialize_getFile_ros0_lv0 s) (by decide)
  · exact stubValid_of_getFile (initialize_getFile_ros1_lv0 s) (by decide)

theorem get_vflash_info_cached {s : VState} {i : VFlashInfo} (h : s.vflashInfo = some i) :
    get_vflash_info s = (s, i) := by
  simp [get_vflash_info, h]

theorem mount_of_cached {s : VState} {i : VFlashInfo} (h : s.vflashInfo = some i) :
    mount_virtual_flash s = (s, true) := by
  simp [mount_virtual_flash, get_vflash_info_cached h]

theorem hardware_nonempty : perform_hardware_detection.isEmpty = false := rfl

/-- Every state reached after the FlashMount stage ran is the state
`initialize_virtual_flash` produced. -/
theorem execFull_flashMount_state (w : NativeWorld) (t : VState)
    (h : Stage.flashMount ∈ (execute_full_boot_sequence w t).2.2) :
    ∃ t1, (execute_full_boot_sequence w t).1 = (initialize_virtual_flash t1).1 := by
  rcases hv : validate_boot_chain t with ⟨t1, ok3⟩
  have hm : mount_virtual_flash ((initialize_virtual_flash t1).1) =
      ((initialize_virtual_flash t1).1, true) := mount_of_cached (initialize_vflashInfo t1)
  by_cases hsys : initialize_syscon w
  · cases ok3 with
    | false => simp [execute_full_boot_sequence, hardware_nonempty, hsys, hv] at h
    | true =>
      refine ⟨t1, ?_⟩
      by_cases h0 : boot_lv0_stage w <;> by_cases h1 : boot_lv1_stage w <;>
        by_cases h2 : boot_lv2_stage w <;>
        simp [execute_full_boot_sequence, hardware_nonempty, hsys, hv, hm, h0, h1, h2]
  · simp [execute_full_boot_sequence, hardware_nonempty, hsys, hv] at h

/-- C10: every call to `initialize_virtual_flash` — also on a state whose layout
is already cached — rewrites `bootloader/version.txt`, both ROS slots'
`lv0.self` and `appldr.self` with the non-empty `"stub"` content, and
`registry/xRegistry.sys` with exactly 1024 zero bytes; consequently both slots'
lv0 stubs are valid afterwards, and in `execute_full_boot_sequence` any state
reached after the FlashMount stage (which runs after BootChainValidate) has both
slots' stubs silently restored. -/
theorem claim10_initialize_reseeds (s : VState) :
    (initialize_virtual_flash s).2 = standardInfo ∧
    ((initialize_virtual_flash s).1).vflashInfo = some standardInfo ∧
    ((initialize_virtual_flash s).1).fs.getFile (vflashBase ++ ["bootloader", "version.txt"])
      = some versionBytes ∧ 0 < versionBytes.length ∧
    ((initialize_virtual_flash s).1).fs.getFile (vflashBase ++ ["ros0", "lv0.self"])
      = some stubBytes ∧
    ((initialize_virtual_flash s).1).fs.getFile (vflashBase ++ ["ros0", "appldr.self"])
      = some stubBytes ∧
    ((initialize_virtual_flash s).1).fs.getFile (vflashBase ++ ["ros1", "lv0.self"])
      = some stubBytes ∧
    ((initialize_virtual_flash s).1).fs.getFile (vflashBase ++ ["ros1", "appldr.self"])
      = some stubBytes ∧ 0 < stubBytes.length ∧
    ((initialize_virtual_flash s).1).fs.getFile (vflashBase ++ ["registry", "xRegistry.sys"])
      = some (List.replicate 1024 0) ∧ (List.replicate 1024 (0 : Nat)).length = 1024 ∧
    slotLv0Valid ((initialize_virtual_flash s).1).fs vflashBase "ros0" = true ∧
    slotLv0Valid ((initialize_virtual_flash s).1).fs vflashBase "ros1" = true ∧
    (∀ (w : NativeWorld) (t : VState),
      Stage.flashMount ∈ (execute_full_boot_sequence w t).2.2 →
      slotLv0Valid ((execute_full_boot_sequence w t).1).fs vflashBase "ros0" = true ∧
      slotLv0Valid ((execute_full_boot_sequence w t).1).fs vflashBase "ros1" = true) := by
  refine ⟨rfl, rfl, initialize_getFile_version s, by decide,
    initialize_getFile_ros0_lv0 s, initialize_getFile_ros0_appldr s,
    initialize_getFile_ros1_lv0 s, initialize_getFile_ros1_appldr s, by decide,
    initialize_getFile_registry s, by rw [List.length_replicate], (initialize_slots_valid s).1,
    (initialize_slots_valid s).2, ?_⟩
  intro w t h
  obtain ⟨t1, ht1⟩ := execFull_flashMount_state w t h
  rw [ht1]
  exact initialize_slots_valid t1

/-- Witness for C10's boot-sequence conjunct: a concrete world where FlashMount
runs and the final state has both stubs valid. -/
theorem claim10_initialize_reseeds_witness :
    slotLv0Valid ((execute_full_boot_sequence
        ⟨false, false, false, true, true, true, true, true, true, true, true⟩
        ⟨⟨[], []⟩, none, none⟩).1).fs vflashBase "ros0" = true :=
  ((claim10_initialize_reseeds ⟨⟨[], []⟩, none, none⟩).2.2.2.2.2.2.2.2.2.2.2.2.2
    ⟨false, false, false, true, true, true, true, true, true, true, true⟩
    ⟨⟨[], []⟩, none, none⟩ (by decide)).1

/-! ### Claim C4: ROS slot selection -/

/-- C4: with a valid (or absent) preference, the candidate order is
`[preferred, other]` when a preference was given and `["ros0", "ros1"]`
otherwise; a slot is valid iff its `lv0.self` exists with non-zero size; the
first valid candidate becomes the active slot and is returned; when no
candidate is valid the active slot is cleared and no slot is returned — all
without touching the filesystem. -/
theorem claim4_select_ros_slot (preferred : Option String) (s : VState) (i : VFlashInfo)
    (hc : s.vflashInfo = some i)
    (hp : preferred = none ∨ preferred = some "ros0" ∨ preferred = some "ros1") :
    (rosCandidates preferred = (match preferred with
      | some p => [p, if p = "ros0" then "ros1" else "ros0"]
      | none => ["ros0", "ros1"])) ∧
    (select_ros_slot preferred s).2 =
      (rosCandidates preferred).find? (fun slot => slotLv0Valid s.fs i.path slot) ∧
    ((select_ros_slot preferred s).1).activeRos = (select_ros_slot preferred s).2 ∧
    ((select_ros_slot preferred s).1).fs = s.fs ∧
    (∀ slot, slotLv0Valid s.fs i.path slot =
      (s.fs.existsPath (i.path ++ [slot, "lv0.self"]) &&
        decide (0 < s.fs.fileSize (i.path ++ [slot, "lv0.self"])))) ∧
    ((rosCandidates preferred).find? (fun slot => slotLv0Valid s.fs i.path slot) = none →
      ((select_ros_slot preferred s).1).activeRos = none) := by
  refine ⟨?_, ?_, ?_, ?_, fun slot => rfl, ?_⟩
  · rcases hp with h | h | h <;> subst h <;> decide
  · unfold select_ros_slot
    rw [get_vflash_info_cached hc]
    rcases hf : (rosCandidates preferred).find?
      (fun slot => slotLv0Valid s.fs i.path slot) with _ | slot <;> simp [hf]
  · unfold select_ros_slot
    rw [get_vflash_info_cached hc]
    rcases hf : (rosCandidates preferred).find?
      (fun slot => slotLv0Valid s.fs i.path slot) with _ | slot <;> simp [hf]
  · unfold select_ros_slot
    rw [get_vflash_info_cached hc]
    rcases hf : (rosCandidates preferred).find?
      (fun slot => slotLv0Valid s.fs i.path slot) with _ | slot <;> simp [hf]
  · intro hf
    unfold select_ros_slot
    rw [get_vflash_info_cached hc]
    dsimp only
    rw [hf]

/-- Witness for C4 on a freshly initialized layout with no preference:
selection returns `ros0` and records it as active. -/
theorem claim4_select_ros_slot_witness :
    (select_ros_slot none (initialize_virtual_flash ⟨⟨[], []⟩, none, none⟩).1).2 =
      (rosCandidates none).find? (fun slot =>
        slotLv0Valid ((initialize_virtual_flash ⟨⟨[], []⟩, none, none⟩).1).fs
          standardInfo.path slot) :=
  (claim4_select_ros_slot none (initialize_virtual_flash ⟨⟨[], []⟩, none, none⟩).1
    standardInfo rfl (Or.inl rfl)).2.1

/-! ### Claim C3: BootChainValidate slot fallback -/

/-- C3: on an initialized layout where ros0's `lv0.self` is deleted or emptied
while ros1's `lv0.self` and `appldr.self` are intact and non-empty,
`validate_boot_chain` selects ros1 as the active slot and returns true; and
when both slots' lv0 stubs are invalid it returns false with the active slot
set to none. -/
theorem claim3_validate_boot_chain (s1 s2 : VState) (i1 i2 : VFlashInfo) :
    (s1.vflashInfo = some i1 →
      slotLv0Valid s1.fs i1.path "ros0" = false →
      stubValid s1.fs (i1.path ++ ["ros1", "lv0.self"]) = true →
      stubValid s1.fs (i1.path ++ ["ros1", "appldr.self"]) = true →
      (validate_boot_chain s1).2 = true ∧
        ((validate_boot_chain s1).1).activeRos = some "ros1") ∧
    (s2.vflashInfo = some i2 →
      slotLv0Valid s2.fs i2.path "ros0" = false →
      slotLv0Valid s2.fs i2.path "ros1" = false →
      (validate_boot_chain s2).2 = false ∧
        ((validate_boot_chain s2).1).activeRos = none) := by
  constructor
  · intro hc h0 hlv hap
    have hs1 : slotLv0Valid s1.fs i1.path "ros1" = true := hlv
    have hfind : (rosCandidates none).find?
        (fun slot => slotLv0Valid s1.fs i1.path slot) = some "ros1" := by
      simp [rosCandidates, List.find?, h0, hs1]
    have hsel : select_ros_slot none s1 =
        ({ s1 with activeRos := some "ros1" }, some "ros1") := by
      unfold select_ros_slot
      rw [get_vflash_info_cached hc]
      dsimp only
      rw [hfind]
    have hver : verify_lv0_and_appldr { s1 with activeRos := some "ros1" } =
        ({ s1 with activeRos := some "ros1" }, true) := by
      unfold verify_lv0_and_appldr
      rw [@get_vflash_info_cached { s1 with activeRos := some "ros1" } i1 hc]
      simp [hlv, hap]
    unfold validate_boot_chain
    rw [hsel]
    simp [hver]
  · intro hc h0 h1
    have hfind : (rosCandidates none).find?
        (fun slot => slotLv0Valid s2.fs i2.path slot) = none := by
      simp [rosCandidates, List.find?, h0, h1]
    have hsel : select_ros_slot none s2 = ({ s2 with activeRos := none }, none) := by
      unfold select_ros_slot
      rw [get_vflash_info_cached hc]
      dsimp only
      rw [hfind]
    unfold validate_boot_chain
    rw [hsel]
    exact ⟨rfl, rfl⟩

/-- An initialized layout with ros0's `lv0.self` emptied, ros1 intact. -/
def c3StateOne : VState :=
  { (initialize_virtual_flash ⟨⟨[], []⟩, none, none⟩).1 with
    fs := ((initialize_virtual_flash ⟨⟨[], []⟩, none, none⟩).1).fs.writeFile
      (vflashBase ++ ["ros0", "lv0.self"]) [] }

/-- An initialized layout with both slots' `lv0.self` removed. -/
def c3StateTwo : VState :=
  { (initialize_virtual_flash ⟨⟨[], []⟩, none, none⟩).1 with
    fs := (((initialize_virtual_flash ⟨⟨[], []⟩, none, none⟩).1).fs.removeFile
      (vflashBase ++ ["ros0", "lv0.self"])).removeFile
      (vflashBase ++ ["ros1", "lv0.self"]) }

/-- Witness for C3: a concrete initialized layout with ros0's stub emptied
(scenario one) and one with both lv0 stubs removed (scenario two). -/
theorem claim3_validate_boot_chain_witness :
    ((validate_boot_chain c3StateOne).2 = true ∧
      ((validate_boot_chain c3StateOne).1).activeRos = some "ros1") ∧
    ((validate_boot_chain c3StateTwo).2 = false ∧
      ((validate_boot_chain c3StateTwo).1).activeRos = none) := by
  constructor
  · exact (claim3_validate_boot_chain c3StateOne c3StateTwo standardInfo standardInfo).1
      rfl (by decide) (by decide) (by decide)
  · exact (claim3_validate_boot_chain c3StateOne c3StateTwo standardInfo standardInfo).2
      rfl (by decide) (by decide)

/-! ### Claim C2: the full boot sequence -/

/-- C2: `execute_full_boot_sequence` returns true iff every stage —
HardwareDetect, SysconInit, BootChainValidate, FlashMount, LV0, LV1, LV2 —
succeeds in that fixed order (the invoked-stage trace is always a front
segment of the fixed order, and the full order exactly when the result is
true); and when the bootloader module's LV0 entry point reports failure the
sequence halts at LV0: the result is false, LV1 and LV2 are never invoked,
and — when the earlier stages pass — the trace ends exactly at LV0. -/
theorem claim2_full_boot_sequence (w : NativeWorld) (s : VState) :
    ((execute_full_boot_sequence w s).2.1 = true ↔
      (perform_hardware_detection.isEmpty = false ∧ initialize_syscon w = true ∧
        (validate_boot_chain s).2 = true ∧
        (mount_virtual_flash ((initialize_virtual_flash ((validate_boot_chain s).1)).1)).2
          = true ∧
        boot_lv0_stage w = true ∧ boot_lv1_stage w = true ∧ boot_lv2_stage w = true)) ∧
    ((execute_full_boot_sequence w s).2.2).isPrefixOf fullStageOrder = true ∧
    ((execute_full_boot_sequence w s).2.1 = true →
      (execute_full_boot_sequence w s).2.2 = fullStageOrder) ∧
    (boot_lv0_stage w = false →
      (execute_full_boot_sequence w s).2.1 = false ∧
      Stage.lv1 ∉ (execute_full_boot_sequence w s).2.2 ∧
      Stage.lv2 ∉ (execute_full_boot_sequence w s).2.2 ∧
      (initialize_syscon w = true → (validate_boot_chain s).2 = true →
        (execute_full_boot_sequence w s).2.2 =
          [.hardwareDetect, .sysconInit, .bootChainValidate, .flashMount, .lv0])) := by
  rcases hv : validate_boot_chain s with ⟨s1, ok3⟩
  have hm : mount_virtual_flash ((initialize_virtual_flash s1).1) =
      ((initialize_virtual_flash s1).1, true) := mount_of_cached (initialize_vflashInfo s1)
  by_cases hsys : initialize_syscon w <;> cases ok3 <;>
    by_cases h0 : boot_lv0_stage w <;> by_cases h1 : boot_lv1_stage w <;>
    by_cases h2 : boot_lv2_stage w <;>
    simp [execute_full_boot_sequence, hardware_nonempty, hsys, hv, hm, h0, h1, h2,
      fullStageOrder, List.isPrefixOf]

/-- Witness for C2: a world whose LV0 entry returns false while every earlier
stage passes halts exactly at LV0 with a false result. -/
theorem claim2_full_boot_sequence_witness :
    (execute_full_boot_sequence
        ⟨false, false, false, true, true, false, true, true, true, true, true⟩
        ⟨⟨[], []⟩, none, none⟩).2.1 = false ∧
      (execute_full_boot_sequence
        ⟨false, false, false, true, true, false, true, true, true, true, true⟩
        ⟨⟨[], []⟩, none, none⟩).2.2 =
        [.hardwareDetect, .sysconInit, .bootChainValidate, .flashMount, .lv0] := by
  have h := (claim2_full_boot_sequence
    ⟨false, false, false, true, true, false, true, true, true, true, true⟩
    ⟨⟨[], []⟩, none, none⟩).2.2.2 (by decide)
  exact ⟨h.1, h.2.2.2 (by decide) (by decide)⟩

/-! ### Deletion-loop lemmas for `format_virtual_flash` / `clean_vflash_partition` -/

theorem find?_path_filter (q : FPath) (keep : FPath × List Nat → Bool)
    (l : List (FPath × List Nat)) (hq : ∀ f : FPath × List Nat, f.1 = q → keep f = true) :
    (l.filter keep).find? (fun f => f.1 = q) = l.find? (fun f => f.1 = q) := by
  induction l with
  | nil => rfl
  | cons g t ih =>
    rw [List.filter_cons]
    by_cases hgq : g.1 = q
    · rw [if_pos (hq g hgq), List.find?_cons_of_pos _ (by simpa using hgq),
        List.find?_cons_of_pos _ (by simpa using hgq)]
    · by_cases hk : keep g = true
      · rw [if_pos hk, List.find?_cons_of_neg _ (by simpa using hgq),
          List.find?_cons_of_neg _ (by simpa using hgq)]
        exact ih
      · rw [if_neg hk, ih]
        exact (List.find?_cons_of_neg _ (by simpa using hgq)).symm

theorem isPrefixOf_eq_false_iff {l₁ l₂ : FPath} :
    l₁.isPrefixOf l₂ = false ↔ ¬ l₁ <+: l₂ := by
  rw [← List.isPrefixOf_iff_prefix]
  cases h : l₁.isPrefixOf l₂ <;> simp

theorem getFile_rmtree {fs : FS} {p q : FPath} (h : ¬ p <+: q) :
    (fs.rmtree p).getFile q = fs.getFile q := by
  unfold FS.rmtree FS.getFile
  rw [find?_path_filter q _ _ ?_]
  intro f hf
  rw [hf]
  simp [isPrefixOf_eq_false_iff.mpr h]

theorem getFile_removeFile {fs : FS} {p q : FPath} (h : q ≠ p) :
    (fs.removeFile p).getFile q = fs.getFile q := by
  unfold FS.removeFile FS.getFile
  rw [find?_path_filter q _ _ ?_]
  intro f hf
  rw [hf]
  simpa using h

theorem dirs_rmtree_mem {fs : FS} {p d : FPath} :
    d ∈ (fs.rmtree p).dirs ↔ d ∈ fs.dirs ∧ ¬ p <+: d := by
  simp only [FS.rmtree, List.mem_filter, Bool.not_eq_true']
  rw [isPrefixOf_eq_false_iff]

theorem mem_entryPaths_rmtree {fs : FS} {p q : FPath}
    (h : q ∈ (fs.rmtree p).entryPaths) : q ∈ fs.entryPaths ∧ ¬ p <+: q := by
  simp only [FS.rmtree, FS.entryPaths, List.mem_append, List.mem_filter,
    List.mem_map] at h ⊢
  rcases h with ⟨hd, hp⟩ | ⟨f, ⟨hf, hp⟩, rfl⟩
  · rw [Bool.not_eq_true', ← Bool.not_eq_true, List.isPrefixOf_iff_prefix] at hp
    exact ⟨Or.inl hd, hp⟩
  · rw [Bool.not_eq_true', ← Bool.not_eq_true, List.isPrefixOf_iff_prefix] at hp
    exact ⟨Or.inr ⟨f, hf, rfl⟩, hp⟩

theorem mem_entryPaths_removeFile {fs : FS} {p q : FPath}
    (h : q ∈ (fs.removeFile p).entryPaths) : q ∈ fs.entryPaths := by
  simp only [FS.removeFile, FS.entryPaths, List.mem_append, List.mem_filter,
    List.mem_map] at h ⊢
  rcases h with hd | ⟨f, ⟨hf, _⟩, rfl⟩
  · exact Or.inl hd
  · exact Or.inr ⟨f, hf, rfl⟩

theorem delStep_subset {canFail : FPath → Bool} {dir : FPath} {fs : FS} {n : String}
    {q : FPath} (h : q ∈ (delStep canFail dir fs n).entryPaths) : q ∈ fs.entryPaths := by
  unfold delStep at h
  by_cases h1 : fs.isDir (dir ++ [n])
  · rw [if_pos h1] at h
    exact (mem_entryPaths_rmtree h).1
  · rw [if_neg h1] at h
    by_cases h2 : canFail (dir ++ [n])
    · rwa [if_pos h2] at h
    · rw [if_neg h2] at h
      exact mem_entryPaths_removeFile h

theorem delFold_subset {canFail : FPath → Bool} {dir : FPath} {ns : List String} :
    ∀ {fs : FS} {q : FPath}, q ∈ (delFold canFail dir ns fs).entryPaths →
      q ∈ fs.entryPaths := by
  induction ns with
  | nil => intro fs q h; exact h
  | cons n ns ih => intro fs q h; exact delStep_subset (ih h)

theorem dirs_delStep_iff {canFail : FPath → Bool} {dir : FPath} {fs : FS} {n : String}
    {d : FPath} (h : ¬ (dir ++ [n]) <+: d) :
    d ∈ (delStep canFail dir fs n).dirs ↔ d ∈ fs.dirs := by
  unfold delStep
  by_cases h1 : fs.isDir (dir ++ [n])
  · rw [if_pos h1, dirs_rmtree_mem]
    exact ⟨fun hh => hh.1, fun hh => ⟨hh, h⟩⟩
  · rw [if_neg h1]
    by_cases h2 : canFail (dir ++ [n]) <;> simp [h2, FS.removeFile]

theorem getFile_delStep {canFail : FPath → Bool} {dir : FPath} {fs : FS} {n : String}
    {q : FPath} (h : ¬ (dir ++ [n]) <+: q) :
    (delStep canFail dir fs n).getFile q = fs.getFile q := by
  unfold delStep
  by_cases h1 : fs.isDir (dir ++ [n])
  · rw [if_pos h1]
    exact getFile_rmtree h
  · rw [if_neg h1]
    by_cases h2 : canFail (dir ++ [n])
    · rw [if_pos h2]
    · rw [if_neg h2]
      exact getFile_removeFile (fun he => h (he ▸ List.prefix_refl _))

theorem delFold_dirs_iff {canFail : FPath → Bool} {dir : FPath} {ns : List String} :
    ∀ {fs : FS} {d : FPath}, (∀ n ∈ ns, ¬ (dir ++ [n]) <+: d) →
      (d ∈ (delFold canFail dir ns fs).dirs ↔ d ∈ fs.dirs) := by
  induction ns with
  | nil => intro fs d _; exact Iff.rfl
  | cons n ns ih =>
    intro fs d h
    exact (ih (fun n' hn' => h n' (List.mem_cons_of_mem _ hn'))).trans
      (dirs_delStep_iff (h n (List.mem_cons_self _ _)))

theorem delFold_getFile {canFail : FPath → Bool} {dir : FPath} {ns : List String} :
    ∀ {fs : FS} {q : FPath}, (∀ n ∈ ns, ¬ (dir ++ [n]) <+: q) →
      (delFold canFail dir ns fs).getFile q = fs.getFile q := by
  induction ns with
  | nil => intro fs q _; rfl
  | cons n ns ih =>
    intro fs q h
    rw [show delFold canFail dir (n :: ns) fs =
      delFold canFail dir ns (delStep canFail dir fs n) from rfl]
    rw [ih (fun n' hn' => h n' (List.mem_cons_of_mem _ hn'))]
    exact getFile_delStep (h n (List.mem_cons_self _ _))

theorem delFold_append (canFail : FPath → Bool) (dir : FPath) (l1 l2 : List String) :
    ∀ fs : FS, delFold canFail dir (l1 ++ l2) fs =
      delFold canFail dir l2 (delFold canFail dir l1 fs) := by
  induction l1 with
  | nil => intro fs; rfl
  | cons n ns ih => intro fs; exact ih (delStep canFail dir fs n)

theorem delStep_kills {canFail : FPath → Bool} {dir : FPath} {n : String} {fs : FS}
    {q : FPath} (hcf : canFail (dir ++ [n]) = false) (hpre : (dir ++ [n]) <+: q)
    (hcase : fs.isDir (dir ++ [n]) = true ∨ (q = dir ++ [n] ∧ q ∉ fs.dirs)) :
    q ∉ (delStep canFail dir fs n).entryPaths := by
  unfold delStep
  rcases hcase with hdir | ⟨hq, hnd⟩
  · rw [if_pos hdir]
    intro hq
    exact (mem_entryPaths_rmtree hq).2 hpre
  · have hdir : ¬ fs.isDir (dir ++ [n]) = true := by
      subst hq
      simpa [FS.isDir] using hnd
    rw [if_neg hdir, if_neg (by simp [hcf])]
    intro hmem
    simp only [FS.removeFile, FS.entryPaths, List.mem_append, List.mem_filter,
      List.mem_map] at hmem
    rcases hmem with hd | ⟨f, ⟨_, hp⟩, rfl⟩
    · exact hnd hd
    · rw [hq] at hp
      simp at hp

theorem childNames_nodup (fs : FS) (dir : FPath) : (fs.childNames dir).Nodup :=
  List.nodup_dedup _

theorem childNames_complete {fs : FS} {dir : FPath} {n : String} {t : List String}
    (h : (dir ++ n :: t) ∈ fs.entryPaths) : n ∈ fs.childNames dir := by
  unfold FS.childNames
  apply List.mem_dedup.mpr
  apply List.mem_filterMap.mpr
  refine ⟨dir ++ n :: t, h, ?_⟩
  rw [if_pos (List.isPrefixOf_iff_prefix.mpr ⟨n :: t, rfl⟩), List.drop_left]
  rfl

theorem take_append_cons (dir : FPath) (n : String) (t : List String) :
    (dir ++ n :: t).take (dir.length + 1) = dir ++ [n] := by
  have h := @List.take_append _ dir (n :: t) 1
  simpa using h

theorem prefix_head_unique {base : FPath} {a b : String} {q : FPath}
    (ha : (base ++ [a]) <+: q) (hb : (base ++ [b]) <+: q) : a = b := by
  obtain ⟨ta, hta⟩ := ha
  obtain ⟨tb, htb⟩ := hb
  rw [← htb] at hta
  rw [List.append_assoc, List.append_assoc] at hta
  have := List.append_cancel_left hta
  exact (List.cons_eq_cons.mp this).1

/-- With no deletion failures and a well-formed filesystem, the deletion pass
leaves nothing strictly below `dir`. -/
theorem deleteChildren_complete {canFail : FPath → Bool} {fs : FS} {dir q : FPath}
    (hcf : ∀ p, canFail p = false) (hwf : fs.Wf)
    (hq : q ∈ (deleteChildren canFail fs dir).entryPaths) (hpre : dir <+: q) :
    q = dir := by
  by_contra hne
  obtain ⟨t, ht⟩ := hpre
  have htne : t ≠ [] := fun h => hne (by rw [← ht, h, List.append_nil])
  obtain ⟨n, t', rfl⟩ := List.exists_cons_of_ne_nil htne
  subst ht
  have hq0 : (dir ++ n :: t') ∈ fs.entryPaths := delFold_subset hq
  have hn : n ∈ fs.childNames dir := childNames_complete hq0
  obtain ⟨l1, l2, hsplit, hnl1⟩ :
      ∃ l1 l2, fs.childNames dir = l1 ++ n :: l2 ∧ n ∉ l1 := by
    obtain ⟨l1, l2, he⟩ := List.append_of_mem hn
    refine ⟨l1, l2, he, ?_⟩
    have hd := List.disjoint_of_nodup_append (he ▸ childNames_nodup fs dir)
    intro hs
    exact hd hs (List.mem_cons_self n l2)
  have hframe : ∀ n' ∈ l1, ¬ (dir ++ [n']) <+: (dir ++ [n]) := by
    intro n' hn' hp
    exact hnl1 ((prefix_head_unique hp (List.prefix_refl _)) ▸ hn')
  have hstep_pre : (dir ++ [n]) <+: (dir ++ n :: t') := ⟨t', by simp⟩
  have hkill : (dir ++ n :: t') ∉
      (delStep canFail dir (delFold canFail dir l1 fs) n).entryPaths := by
    apply delStep_kills (hcf _) hstep_pre
    by_cases hdd : (dir ++ [n]) ∈ fs.dirs
    · left
      have hmem : (dir ++ [n]) ∈ (delFold canFail dir l1 fs).dirs :=
        (delFold_dirs_iff hframe).mpr hdd
      simpa [FS.isDir] using hmem
    · right
      have ht'nil : t' = [] := by
        by_contra ht'
        have hlen : dir.length + 1 < (dir ++ n :: t').length := by
          have := List.length_pos.mpr ht'
          simp [List.length_append]
          omega
        have hwfq := hwf _ hq0 (dir.length + 1) hlen (by omega)
        rw [take_append_cons] at hwfq
        exact hdd hwfq
      subst ht'nil
      refine ⟨rfl, ?_⟩
      intro hmem
      exact hdd ((delFold_dirs_iff hframe).mp hmem)
  rw [deleteChildren, hsplit, delFold_append,
    show delFold canFail dir (n :: l2) (delFold canFail dir l1 fs) =
      delFold canFail dir l2 (delStep canFail dir (delFold canFail dir l1 fs) n)
      from rfl] at hq
  exact hkill (delFold_subset hq)

/-! ### Claim C7: `format_virtual_flash` -/

/-- An initialized layout with one extra file directly under the base path. -/
def c7State : VState :=
  { (initialize_virtual_flash ⟨⟨[], []⟩, none, none⟩).1 with
    fs := ((initialize_virtual_flash ⟨⟨[], []⟩, none, none⟩).1).fs.writeFile
      (vflashBase ++ ["junk.bin"]) [1] }

/-- A deletion-failure oracle: removing `junk.bin` raises. -/
def c7CanFail : FPath → Bool := fun p => p = vflashBase ++ ["junk.bin"]

/-- Counterexample to C7 as stated: `junk.bin` sits directly under the base
path and its deletion fails, yet `format_virtual_flash` completes successfully
(no `FlashError`), silently leaving the undeletable file in place. -/
theorem claim7_counterexample :
    "junk.bin" ∈ c7State.fs.childNames vflashBase ∧
    c7CanFail (vflashBase ++ ["junk.bin"]) = true ∧
    (∃ s', format_virtual_flash c7CanFail c7State = .ok (s', standardInfo) ∧
      s'.fs.getFile (vflashBase ++ ["junk.bin"]) = some [1]) ∧
    ∀ e : FlashError, format_virtual_flash c7CanFail c7State ≠ .error e := by
  refine ⟨by decide, by decide, ⟨_, rfl, by decide⟩, ?_⟩
  intro e h
  simp [format_virtual_flash] at h

/-- C7 as amended: `format_virtual_flash` deletes the entries directly under
the base path best-effort — an entry whose deletion fails is silently skipped,
not logged and not fatal — then clears the cached layout and re-runs
initialize and mount, always returning successfully with the standard layout
(whose stub artifacts are re-seeded); with no deletion failures on a
well-formed filesystem the deletion pass leaves nothing strictly below the
base path. -/
theorem claim7_amended :
    (∀ (canFail : FPath → Bool) (s : VState),
      ∃ s', format_virtual_flash canFail s = .ok (s', standardInfo) ∧
        s'.vflashInfo = some standardInfo ∧
        slotLv0Valid s'.fs vflashBase "ros0" = true ∧
        slotLv0Valid s'.fs vflashBase "ros1" = true) ∧
    (∀ (canFail : FPath → Bool) (s : VState) (i : VFlashInfo),
      (∀ p, canFail p = false) → s.vflashInfo = some i → FS.Wf s.fs →
      ∀ q ∈ (deleteChildren canFail s.fs i.path).entryPaths, i.path <+: q →
        q = i.path) := by
  constructor
  · intro canFail s
    rcases hg : get_vflash_info s with ⟨s1, info⟩
    refine ⟨(initialize_virtual_flash
      { s1 with fs := deleteChildren canFail s1.fs info.path, vflashInfo := none }).1,
      ?_, rfl, ?_, ?_⟩
    · unfold format_virtual_flash
      rw [hg]
      dsimp only
      rw [mount_of_cached (initialize_vflashInfo _)]
      rfl
    · exact (initialize_slots_valid _).1
    · exact (initialize_slots_valid _).2
  · intro canFail s i hcf hc hwf q hq hpre
    exact deleteChildren_complete hcf hwf hq hpre

/-- Witness for C7's amended statement, on the concrete layout with an
undeletable file (part one), and the cleaned base path itself surviving a
failure-free deletion pass over a fresh layout (part two). -/
theorem claim7_amended_witness :
    (∃ s', format_virtual_flash c7CanFail c7State = .ok (s', standardInfo) ∧
      s'.vflashInfo = some standardInfo ∧
      slotLv0Valid s'.fs vflashBase "ros0" = true ∧
      slotLv0Valid s'.fs vflashBase "ros1" = true) ∧
    vflashBase = standardInfo.path := by
  constructor
  · exact claim7_amended.1 c7CanFail c7State
  · exact (claim7_amended.2 (fun _ => false)
      (initialize_virtual_flash ⟨⟨[], []⟩, none, none⟩).1 standardInfo
      (fun _ => rfl) rfl (by decide) standardInfo.path (by decide)
      (List.prefix_refl _)).symm

/-! ### Claim C8: `clean_vflash_partition` -/

theorem prefix_append_single (l : FPath) (x : String) : l <+: l ++ [x] := ⟨[x], rfl⟩

/-- C8: on an initialized, well-formed layout (with no deletion failures),
`cleanPartition("dev_flash2")` returns true, retains the `dev_flash2`
directory itself, removes everything strictly below it, and leaves every
entry and file content under `dev_flash` and `dev_flash3` unchanged; and for
every name that is not an existing directory under the base path,
`cleanPartition(name)` returns false. -/
theorem claim8_clean_partition (canFail : FPath → Bool) (s : VState) (i : VFlashInfo)
    (hcf : ∀ p, canFail p = false) (hc : s.vflashInfo = some i) (hwf : FS.Wf s.fs)
    (hdir : s.fs.isDir (i.path ++ ["dev_flash2"]) = true) :
    (clean_vflash_partition canFail "dev_flash2" s).2 = true ∧
    (i.path ++ ["dev_flash2"]) ∈
      ((clean_vflash_partition canFail "dev_flash2" s).1).fs.dirs ∧
    (∀ q ∈ ((clean_vflash_partition canFail "dev_flash2" s).1).fs.entryPaths,
      (i.path ++ ["dev_flash2"]) <+: q → q = i.path ++ ["dev_flash2"]) ∧
    (∀ q : FPath, (i.path ++ ["dev_flash"]) <+: q ∨ (i.path ++ ["dev_flash3"]) <+: q →
      ((clean_vflash_partition canFail "dev_flash2" s).1).fs.getFile q = s.fs.getFile q ∧
      (q ∈ ((clean_vflash_partition canFail "dev_flash2" s).1).fs.dirs ↔
        q ∈ s.fs.dirs)) ∧
    (∀ name : String, s.fs.isDir (i.path ++ [name]) = false →
      (clean_vflash_partition canFail name s).2 = false) := by
  have hclean : clean_vflash_partition canFail "dev_flash2" s =
      ({ s with fs := deleteChildren canFail s.fs (i.path ++ ["dev_flash2"]) }, true) := by
    unfold clean_vflash_partition
    rw [get_vflash_info_cached hc]
    dsimp only
    rw [if_pos hdir]
  have hlen_no : ∀ (d2 : FPath) (n : String), ¬ (d2 ++ [n]) <+: d2 := by
    intro d2 n hp
    have := hp.length_le
    simp [List.length_append] at this
  refine ⟨by rw [hclean], ?_, ?_, ?_, ?_⟩
  · rw [hclean]
    dsimp only
    rw [deleteChildren]
    have : (i.path ++ ["dev_flash2"]) ∈ s.fs.dirs := by
      simpa [FS.isDir] using hdir
    exact (delFold_dirs_iff (fun n _ => hlen_no _ n)).mpr this
  · rw [hclean]
    intro q hq hpre
    exact deleteChildren_complete hcf hwf hq hpre
  · rw [hclean]
    intro q hq
    have hno : ∀ n ∈ s.fs.childNames (i.path ++ ["dev_flash2"]),
        ¬ ((i.path ++ ["dev_flash2"]) ++ [n]) <+: q := by
      intro n _ hp
      have hp2 : (i.path ++ ["dev_flash2"]) <+: q :=
        (prefix_append_single _ n).trans hp
      rcases hq with h1 | h1
      · exact absurd (prefix_head_unique hp2 h1) (by decide)
      · exact absurd (prefix_head_unique hp2 h1) (by decide)
    dsimp only
    rw [deleteChildren]
    exact ⟨delFold_getFile hno, delFold_dirs_iff hno⟩
  · intro name hname
    unfold clean_vflash_partition
    rw [get_vflash_info_cached hc]
    dsimp only
    rw [if_neg (by simp [hname])]

/-- An initialized layout with an extra file inside `dev_flash2`. -/
def c8State : VState :=
  { (initialize_virtual_flash ⟨⟨[], []⟩, none, none⟩).1 with
    fs := ((initialize_virtual_flash ⟨⟨[], []⟩, none, none⟩).1).fs.writeFile
      (vflashBase ++ ["dev_flash2", "garbage.bin"]) [7] }

/-- Witness for C8: cleaning `dev_flash2` on the concrete layout succeeds and
retains the directory, while a missing name is rejected. -/
theorem claim8_clean_partition_witness :
    (clean_vflash_partition (fun _ => false) "dev_flash2" c8State).2 = true ∧
    (vflashBase ++ ["dev_flash2"]) ∈
      ((clean_vflash_partition (fun _ => false) "dev_flash2" c8State).1).fs.dirs ∧
    (clean_vflash_partition (fun _ => false) "no_such_dir" c8State).2 = false := by
  have h := claim8_clean_partition (fun _ => false) c8State standardInfo
    (fun _ => rfl) rfl (by decide) (by decide)
  exact ⟨h.1, h.2.1, h.2.2.2.2 "no_such_dir" (by decide)⟩

/-! ### Claim C9: recovery provisioning cleanup -/

/-- C9: after every `boot_recovery` call that reaches the native-call section
(the preparation copy did not raise), the `GSCX_RECOVERY_PUP` binding is
absent — whether the native recovery entry returned normally or raised, the
`finally`-block clearing runs; a call with no firmware path clears any
pre-existing binding; no directory is ever deleted by `boot_recovery` (in
particular the provisioned virtual-USB directory survives), and an
auto-created virtual-USB directory is recorded and still exists afterwards. -/
theorem claim9_boot_recovery (w : RecoveryWorld) (pupPath usbDir : Option FPath)
    (content : List Nat) (st : RecState) :
    ((pupPath.isSome → w.copyFails = false) →
      ((boot_recovery w pupPath usbDir content st).1).env = none) ∧
    (pupPath = none → ((boot_recovery w pupPath usbDir content st).1).env = none) ∧
    (∀ d ∈ st.fs.dirs, d ∈ ((boot_recovery w pupPath usbDir content st).1).fs.dirs) ∧
    (pupPath.isSome → w.copyFails = false → usbDir = none →
      ((boot_recovery w pupPath usbDir content st).1).vusbDir = some tempUsbDir ∧
      tempUsbDir ∈ ((boot_recovery w pupPath usbDir content st).1).fs.dirs) := by
  have hmono : ∀ (fs : FS) (p d : FPath), d ∈ fs.dirs → d ∈ (fs.makedirs p).dirs :=
    fun fs p d hd => (dirs_makedirs fs p d).mpr (Or.inr hd)
  have hself : ∀ fs : FS, tempUsbDir ∈ (fs.makedirs tempUsbDir).dirs := fun fs =>
    (dirs_makedirs fs tempUsbDir tempUsbDir).mpr (Or.inl (by decide))
  rcases pupPath with _ | p
  · refine ⟨fun _ => rfl, fun _ => rfl, fun d hd => ?_, fun h => by simp at h⟩
    simpa [boot_recovery, runNativeRecovery] using hd
  · rcases hcf : w.copyFails with _ | _
    · rcases usbDir with _ | u
      · refine ⟨fun _ => by simp [boot_recovery, runNativeRecovery, hcf],
          fun h => by simp at h, fun d hd => ?_,
          fun _ _ _ => ⟨by simp [boot_recovery, runNativeRecovery, hcf], ?_⟩⟩
        · simpa [boot_recovery, runNativeRecovery, hcf] using hmono _ _ _ hd
        · simpa [boot_recovery, runNativeRecovery, hcf] using hself st.fs
      · refine ⟨fun _ => by simp [boot_recovery, runNativeRecovery, hcf],
          fun h => by simp at h, fun d hd => ?_,
          fun _ _ hu => by simp at hu⟩
        simpa [boot_recovery, runNativeRecovery, hcf] using hmono _ _ _ hd
    · refine ⟨fun h => by simp [hcf] at h, fun h => by simp at h, fun d hd => ?_,
        fun _ hc _ => by simp [hcf] at hc⟩
      rcases usbDir with _ | u <;>
        simpa [boot_recovery, runNativeRecovery, hcf] using hmono _ _ _ hd

/-- Witness for C9: with a firmware path, no explicit USB directory, a
successful copy and a native entry that raises, the binding is cleared and
the auto-created USB directory survives. -/
theorem claim9_boot_recovery_witness :
    ((boot_recovery ⟨true, true, true, false⟩ (some ["fw.pup"]) none [1]
        ⟨some ["old"], ⟨[], []⟩, none, none⟩).1).env = none ∧
    ((boot_recovery ⟨true, true, true, false⟩ (some ["fw.pup"]) none [1]
        ⟨some ["old"], ⟨[], []⟩, none, none⟩).1).vusbDir = some tempUsbDir := by
  have h := claim9_boot_recovery ⟨true, true, true, false⟩ (some ["fw.pup"]) none [1]
    ⟨some ["old"], ⟨[], []⟩, none, none⟩
  exact ⟨h.1 (fun _ => rfl), (h.2.2.2 rfl rfl rfl).1⟩

end GSCX
